import Mathlib

/-!
Shallow embedding of the radius packet codec (packet.go, pbuf.go, attr.go,
attr_data.go and the dictionary file) for verification of the spec's claims.

Bytes are modelled as `Nat` values; byte casts from Go (`byte(x)`) appear as
explicit `% 256`.  Go slices become `List Nat`; `nil`-able pointers become
`Option`.  Fallible Go functions returning `error` become `Except String` /
explicit result inductives.  The Go panic reachable in `parseAttr` /
`parseVSA` (indexing `ad[0]` on an empty slice) is modelled as an explicit
`panic` result constructor.
-/

set_option maxHeartbeats 1000000
set_option maxRecDepth 4000

/-- Attr encryption kinds (attr_data.go `AttrEnc`). -/
inductive AttrEnc where
  | AttrEncNone
  | AttrEncUsr
  | AttrEncTun
  | AttrEncAsc
deriving DecidableEq, Repr

/-- Attr data types (attr_data.go `AttrDType`). -/
inductive AttrDType where
  | DTypeRaw
  | DTypeString
  | DTypeIP4
  | DTypeIP4Pfx
  | DTypeInt
  | DTypeInt64
  | DTypeDate
  | DTypeIfID
  | DTypeIP6
  | DTypeIP6Pfx
  | DTypeByte
  | DTypeEth
  | DTypeShort
  | DTypeSInt
  | DTypeVSA
deriving DecidableEq, Repr

/-- Dictionary entry (attr_data.go `AttrData`).  `atype`, `vtype` are Go
bytes, `vid` a Go uint32. -/
structure AttrData where
  name : String
  atype : Nat
  vid : Nat
  vtype : Nat
  dtype : AttrDType
  enc : AttrEnc
  tagged : Bool
deriving DecidableEq, Repr

/-- The two dictionary indices (attr_data.go `attrStore`); Go maps become
association lists (`AddAttrFull` never inserts a duplicate key, so lookup
semantics coincide with Go map semantics). -/
structure attrStore where
  byName : List (String × AttrData)
  byAttr : List (Nat × AttrData)
deriving DecidableEq, Repr

/-- The empty dictionary (initial state of the package-global `attrDict`). -/
def emptyDict : attrStore := { byName := [], byAttr := [] }

/-- Composite dictionary key (dictionary file `attrKey`): non-VSA entries key
purely on the attribute type, VSA entries on `vid<<16 | vtype<<8 | atype`. -/
def attrKey (atype vid vtype : Nat) : Nat :=
  if atype ≠ 26 then atype
  else (vid <<< 16) ||| (vtype <<< 8) ||| atype

/-- Normalized name key (dictionary file `nameKey`, `strings.ToLower`):
lower-cases the name character by character. -/
def nameKey (name : String) : String := String.mk (name.data.map Char.toLower)

/-- Dictionary registration (dictionary file `AddAttrFull`).  Returns the
updated store together with the Go error value; on a duplicate name or key
the store is returned unchanged. -/
def AddAttrFull (d : attrStore) (name : String) (atype vid vtype : Nat)
    (dtype : AttrDType) (enc : AttrEnc) (tagged : Bool) : attrStore × Option String :=
  let aKey := attrKey atype vid vtype
  let nKey := nameKey name
  if (d.byName.lookup nKey).isSome ∨ (d.byAttr.lookup aKey).isSome then
    (d, some ("Attribute exists: " ++ name))
  else
    let attr : AttrData := ⟨name, atype, vid, vtype, dtype, enc, tagged⟩
    ({ byName := (nKey, attr) :: d.byName, byAttr := (aKey, attr) :: d.byAttr }, none)

/-- Lookup by name (dictionary file `GetAttrByName`). -/
def GetAttrByName (d : attrStore) (name : String) : Option AttrData :=
  d.byName.lookup (nameKey name)

/-- Lookup by composite key (dictionary file `GetAttrByAttrFull`). -/
def GetAttrByAttrFull (d : attrStore) (atype vid vtype : Nat) : Option AttrData :=
  d.byAttr.lookup (attrKey atype vid vtype)

/-- Plain-attribute lookup (dictionary file `GetAttrByAttr`). -/
def GetAttrByAttr (d : attrStore) (atype : Nat) : Option AttrData :=
  GetAttrByAttrFull d atype 0 0

/-- VSA lookup (dictionary file `GetVSAByAttr`). -/
def GetVSAByAttr (d : attrStore) (vid vtype : Nat) : Option AttrData :=
  GetAttrByAttrFull d 26 vid vtype

/-- Nil-tolerant `(*AttrData).IsTagged` (attr_data.go): nil defaults to
untagged. -/
def adTagged : Option AttrData → Bool
  | none => false
  | some d => d.tagged

/-- Nil-tolerant `(*AttrData).GetEnc`. -/
def adGetEnc : Option AttrData → AttrEnc
  | none => .AttrEncNone
  | some d => d.enc

/-- Nil-tolerant `(*AttrData).GetName`. -/
def adGetName : Option AttrData → String
  | none => ""
  | some d => d.name

/-- Nil-tolerant `(*AttrData).GetDataType`. -/
def adGetDataType : Option AttrData → AttrDType
  | none => .DTypeRaw
  | some d => d.dtype

/-- One attribute-value pair (attr.go `Attr`).  The lazily-cached `edata`
field is dropped: evaluation (`GetEData`) is modelled as the pure function
`edataOf` of the two fields it reads.  The weak back-reference `pkt` becomes
a Bool flag: `true` = points at its owning packet, `false` = cleared/nil. -/
structure Attr where
  atype : Nat
  alen : Nat
  vid : Nat
  vtype : Nat
  vlen : Nat
  tag : Nat
  data : List Nat
  ad : Option AttrData
  pkt : Bool
deriving DecidableEq, Repr

/-- Evaluated attribute value (the dynamic type of attr.go's
`edata interface{}`): raw bytes, text, addresses, integers, a timestamp, a
hardware address. -/
inductive EData where
  | raw (bs : List Nat)
  | str (bs : List Nat)
  | ip (bs : List Nat)
  | u32 (n : Nat)
  | u64 (n : Nat)
  | u16 (n : Nat)
  | byteV (n : Nat)
  | timeV (n : Nat)
  | hw (bs : List Nat)
deriving DecidableEq, Repr

/-- Big-endian value of an exact-length byte list (encoding/binary
`BigEndian.Uint16/32/64` on a slice of matching length). -/
def beBytes (l : List Nat) : Nat := l.foldl (fun acc b => acc * 256 + b) 0

/-- Attribute evaluation (attr.go `GetEData`), as a pure function of the two
fields it reads.  Mirrors the Go control flow: unknown definition or non-none
encryption yield the raw bytes; the data-type switch sets a value only on an
exact length match, and the final nil-check falls back to the raw bytes. -/
def edataOf (ado : Option AttrData) (data : List Nat) : EData :=
  match ado with
  | none => .raw data
  | some d =>
    if d.enc ≠ AttrEnc.AttrEncNone then .raw data
    else
      let e : Option EData :=
        match d.dtype with
        | .DTypeString => some (.str data)
        | .DTypeIP4 => if data.length = 4 then some (.ip data) else none
        | .DTypeInt => if data.length = 4 then some (.u32 (beBytes data)) else none
        | .DTypeInt64 => if data.length = 8 then some (.u64 (beBytes data)) else none
        | .DTypeDate => if data.length = 4 then some (.timeV (beBytes data)) else none
        | .DTypeIfID => if data.length = 8 then some (.u64 (beBytes data)) else none
        | .DTypeIP6 => if data.length = 16 then some (.ip data) else none
        | .DTypeByte => if data.length = 1 then some (.byteV (data.getD 0 0)) else none
        | .DTypeEth => if data.length = 6 then some (.hw data) else none
        | .DTypeShort => if data.length = 2 then some (.u16 (beBytes data)) else none
        | _ => none
      e.getD (.raw data)

/-- Method form of attribute evaluation (attr.go `(*Attr).GetEData`). -/
def Attr.GetEData (a : Attr) : EData := edataOf a.ad a.data

/-- One RADIUS message (packet.go `Packet`).  `udata` (`interface{}`) is an
opaque `Option Nat`; the nil-able `secret` slice is an `Option`. -/
structure Packet where
  code : Nat
  id : Nat
  len : Nat
  auth : List Nat
  attrs : List Attr
  vids : List Nat
  secret : Option (List Nat)
  data : List Nat
  udata : Option Nat
  reply : Bool
deriving DecidableEq, Repr

/-- Read cursor over a byte buffer (pbuf.go `rBuf`): backing bytes, read
position, bytes left. -/
structure rBuf where
  buf : List Nat
  bp : Nat
  bl : Nat
deriving DecidableEq, Repr

/-- Cursor over a whole buffer (pbuf.go `newBuf`). -/
def newBuf (buf : List Nat) : rBuf := { buf := buf, bp := 0, bl := buf.length }

/-- Remaining bytes (pbuf.go `getLeft`). -/
def rBuf.getLeft (rb : rBuf) : Nat := rb.bl

/-- Decode error kinds, one constructor per distinct `errors.New` site:
`tooShort` = "Packet too short", `lenError` = "Packet len error",
`noData` = pbuf.go `errNoData`, `invalid` = pbuf.go `errInvalid`,
`vsaShort` = "VSA too short". -/
inductive PErr where
  | tooShort
  | lenError
  | noData
  | invalid
  | vsaShort
deriving DecidableEq, Repr

/-- The single TLV choke point (pbuf.go `getAttr`): reads a 1-byte type and a
1-byte length, rejects a length below its own 2-byte header (`errInvalid`)
or beyond the remaining scope (`errNoData`), and returns the value bytes
plus the advanced cursor. -/
def getAttr (rb : rBuf) : Except PErr (Nat × List Nat × rBuf) :=
  if rb.bl < 2 then .error .noData
  else
    let t := rb.buf.getD rb.bp 0
    let lb := rb.buf.getD (rb.bp + 1) 0
    if lb < 2 then .error .invalid
    else
      let l := lb - 2
      if l > rb.bl - 2 then .error .noData
      else
        .ok (t, (rb.buf.drop (rb.bp + 2)).take l,
          { buf := rb.buf, bp := rb.bp + 2 + l, bl := rb.bl - 2 - l })

/-- Result of a VSA body walk: attributes appended so far, possibly ending in
a framing error or in the Go panic from `vd[0]` on an empty tagged value. -/
inductive VSAOut where
  | ok (attrs : List Attr)
  | err (e : PErr) (attrs : List Attr)
  | panic (attrs : List Attr)
deriving DecidableEq, Repr

/-- Result of the top-level attribute walk. -/
inductive LoopOut where
  | ok (attrs : List Attr) (vids : List Nat)
  | err (e : PErr) (attrs : List Attr)
  | panic (attrs : List Attr)
deriving DecidableEq, Repr

/-- Build one plain attribute (packet.go `parseAttr`): resolve the dictionary
entry; when tagged, the first value byte is the tag — on an empty value that
Go access `ad[0]` panics, modelled as `none`. -/
def parseAttrF (dict : attrStore) (aty : Nat) (advl : List Nat) : Option Attr :=
  let adp := GetAttrByAttr dict aty
  if adTagged adp then
    match advl with
    | [] => none
    | t :: rest =>
      some { atype := aty, alen := (advl.length + 2) % 256, vid := 0, vtype := 0,
             vlen := 0, tag := t, data := rest, ad := adp, pkt := true }
  else
    some { atype := aty, alen := (advl.length + 2) % 256, vid := 0, vtype := 0,
           vlen := 0, tag := 0, data := advl, ad := adp, pkt := true }

/-- Big-endian uint32 of the first four bytes (encoding/binary
`BigEndian.Uint32(adata)`). -/
def be32v (l : List Nat) : Nat :=
  ((l.getD 0 0 * 256 + l.getD 1 0) * 256 + l.getD 2 0) * 256 + l.getD 3 0

/-- Nested VSA walk (the loop of packet.go `parseVSA`).  Structural recursion
on a fuel argument; the entry point supplies `fuel = rb.bl`, which bounds the
iteration count (every iteration strips at least a 2-byte header), so the
fuel-exhausted arm is unreachable from `parseVSA`. -/
def parseVSAF (dict : attrStore) : Nat → Nat → rBuf → List Attr → VSAOut
  | 0, _, rb, acc => if 2 ≤ rb.bl then .err .noData acc else .ok acc
  | fuel + 1, vid, rb, acc =>
    if 2 ≤ rb.bl then
      match getAttr rb with
      | .error e => .err e acc
      | .ok (vt, vd, rb') =>
        let adp := GetVSAByAttr dict vid vt
        if adTagged adp then
          match vd with
          | [] => .panic acc
          | t :: rest =>
            parseVSAF dict fuel vid rb'
              (acc ++ [{ atype := 26, alen := (vd.length + 8) % 256, vid := vid,
                         vtype := vt, vlen := (vd.length + 2) % 256, tag := t,
                         data := rest, ad := adp, pkt := true }])
        else
          parseVSAF dict fuel vid rb'
            (acc ++ [{ atype := 26, alen := (vd.length + 8) % 256, vid := vid,
                       vtype := vt, vlen := (vd.length + 2) % 256, tag := 0,
                       data := vd, ad := adp, pkt := true }])
    else .ok acc

/-- VSA attribute decode (packet.go `parseVSA`): value must be at least 6
bytes (4-byte vendor id plus one nested header); the remaining bytes are
walked with a fresh cursor. -/
def parseVSA (dict : attrStore) (adata : List Nat) : Nat × VSAOut :=
  if adata.length < 6 then (0, .err .vsaShort [])
  else
    let vid := be32v adata
    let rb := newBuf (adata.drop 4)
    (vid, parseVSAF dict rb.bl vid rb [])

/-- Top-level attribute walk (the loop of packet.go `ParsePacket`).  Fuel as
in `parseVSAF`. -/
def parseLoopF (dict : attrStore) : Nat → rBuf → List Attr → List Nat → LoopOut
  | 0, rb, acc, vids => if 2 ≤ rb.bl then .err .noData acc else .ok acc vids
  | fuel + 1, rb, acc, vids =>
    if 2 ≤ rb.bl then
      match getAttr rb with
      | .error e => .err e acc
      | .ok (aty, advl, rb') =>
        if aty ≠ 26 then
          match parseAttrF dict aty advl with
          | none => .panic acc
          | some a => parseLoopF dict fuel rb' (acc ++ [a]) vids
        else
          match parseVSA dict advl with
          | (vid, .ok vas) =>
            parseLoopF dict fuel rb' (acc ++ vas)
              (if vid ∈ vids then vids else vids ++ [vid])
          | (_, .err e vas) => .err e (acc ++ vas)
          | (_, .panic vas) => .panic (acc ++ vas)
    else .ok acc vids

/-- Entry point for the attribute walk with its exact fuel. -/
def parseLoop (dict : attrStore) (rb : rBuf) (acc : List Attr) (vids : List Nat) : LoopOut :=
  parseLoopF dict rb.bl rb acc vids

/-- Result of `ParsePacket`: a packet, or an error with the attributes that
were built and then detached by the deferred cleanup (their `pkt`
back-reference cleared, no packet returned), or the Go panic escaping. -/
inductive ParseRes where
  | ok (p : Packet)
  | err (e : PErr) (discarded : List Attr)
  | panic
deriving DecidableEq, Repr

/-- Declared packet length, read big-endian from header bytes 2–3. -/
def declLen (buf : List Nat) : Nat := buf.getD 2 0 * 256 + buf.getD 3 0

/-- The packet constructed from an accepted header (packet.go `ParsePacket`
step 3): code, id, declared length, the 16 authenticator bytes, the retained
raw buffer, and everything else zero. -/
def hdrPacket (buf : List Nat) : Packet :=
  { code := buf.getD 0 0, id := buf.getD 1 0, len := declLen buf,
    auth := (buf.drop 4).take 16, attrs := [], vids := [],
    secret := none, data := buf, udata := none, reply := false }

/-- Full packet decode (packet.go `ParsePacket`): header checks, then the
attribute walk over `buf[20:]` (note: the cursor covers the whole remaining
buffer, not only the declared length); on a walk error the deferred cleanup
clears every built attribute's back-reference and returns no packet. -/
def ParsePacket (dict : attrStore) (buf : List Nat) : ParseRes :=
  if buf.length < 20 then .err .tooShort []
  else
    let pl := declLen buf
    if pl < 20 ∨ pl > 4096 ∨ pl > buf.length then .err .lenError []
    else
      let pkt : Packet := hdrPacket buf
      if pl = 20 then .ok pkt
      else
        match parseLoop dict (newBuf (buf.drop 20)) [] [] with
        | .ok attrs vids => .ok { pkt with attrs := attrs, vids := vids }
        | .err e attrs => .err e (attrs.map (fun a => { a with pkt := false }))
        | .panic _ => .panic

/-- Typed values accepted by the encode direction (the dynamic type of the
`data interface{}` argument of packet.go `AddAttr`): byte slice, string
(as its bytes), `net.IP`, unsigned integers, `time.Time` (as Unix seconds)
or `int64` for dates, a single byte, `net.HardwareAddr`. -/
inductive Value where
  | vbytes (bs : List Nat)
  | vstr (bs : List Nat)
  | vip (bs : List Nat)
  | vu32 (n : Nat)
  | vu64 (n : Nat)
  | vu16 (n : Nat)
  | vtime (n : Nat)
  | vint64 (i : Int)
  | vbyte (n : Nat)
  | vhw (bs : List Nat)
deriving DecidableEq, Repr

/-- Whether the value is a Go `[]byte` (the type assertion `v.([]byte)`). -/
def isBytesVal : Value → Bool
  | .vbytes _ => true
  | _ => false

/-- Big-endian 2-byte encoding (binary.BigEndian.PutUint16). -/
def be16enc (n : Nat) : List Nat := [n / 2 ^ 8 % 256, n % 256]

/-- Big-endian 4-byte encoding (binary.BigEndian.PutUint32). -/
def be32enc (n : Nat) : List Nat :=
  [n / 2 ^ 24 % 256, n / 2 ^ 16 % 256, n / 2 ^ 8 % 256, n % 256]

/-- Big-endian 8-byte encoding (binary.BigEndian.PutUint64). -/
def be64enc (n : Nat) : List Nat :=
  [n / 2 ^ 56 % 256, n / 2 ^ 48 % 256, n / 2 ^ 40 % 256, n / 2 ^ 32 % 256,
   n / 2 ^ 24 % 256, n / 2 ^ 16 % 256, n / 2 ^ 8 % 256, n % 256]

/-- The 12-byte IPv4-in-IPv6 mapping used by net.IP. -/
def v4mapped : List Nat := [0, 0, 0, 0, 0, 0, 0, 0, 0, 0, 255, 255]

/-- `net.IP.To4`: a 4-byte address is itself; a 16-byte v4-mapped address
narrows to its last 4 bytes; anything else is nil. -/
def ipTo4 (l : List Nat) : Option (List Nat) :=
  if l.length = 4 then some l
  else if l.length = 16 ∧ l.take 12 = v4mapped then some (l.drop 12)
  else none

/-- `net.IP.To16`: a 16-byte address is itself; a 4-byte address widens to
its v4-mapped form; anything else is nil. -/
def ipTo16 (l : List Nat) : Option (List Nat) :=
  if l.length = 16 then some l
  else if l.length = 4 then some (v4mapped ++ l)
  else none

/-- The Go error value `errInvalidFormat` ("Invalid data format"). -/
def errInvalidFormat : String := "Invalid data format"

/-- Encode-direction conversion (packet.go `attrConv`): each data type
accepts exactly one value representation; data types without a case
(IP4Pfx, IP6Pfx, SInt, VSA) fall through to the format error. -/
def attrConv (ad : AttrDType) (v : Value) : Except String (List Nat) :=
  match ad with
  | .DTypeRaw =>
    match v with
    | .vbytes bs => .ok bs
    | _ => .error errInvalidFormat
  | .DTypeString =>
    match v with
    | .vstr bs => .ok bs
    | _ => .error errInvalidFormat
  | .DTypeIP4 =>
    match v with
    | .vip l =>
      match ipTo4 l with
      | some l4 => .ok l4
      | none => .error errInvalidFormat
    | _ => .error errInvalidFormat
  | .DTypeInt =>
    match v with
    | .vu32 n => .ok (be32enc n)
    | _ => .error errInvalidFormat
  | .DTypeInt64 =>
    match v with
    | .vu64 n => .ok (be64enc n)
    | _ => .error errInvalidFormat
  | .DTypeDate =>
    match v with
    | .vtime t => .ok (be32enc t)
    | .vint64 i => .ok (be32enc (i % (2 ^ 32 : Int)).toNat)
    | _ => .error errInvalidFormat
  | .DTypeIfID =>
    match v with
    | .vu64 n => .ok (be64enc n)
    | _ => .error errInvalidFormat
  | .DTypeIP6 =>
    match v with
    | .vip l =>
      match ipTo16 l with
      | some l16 => .ok l16
      | none => .error errInvalidFormat
    | _ => .error errInvalidFormat
  | .DTypeByte =>
    match v with
    | .vbyte b => .ok [b % 256]
    | _ => .error errInvalidFormat
  | .DTypeEth =>
    match v with
    | .vhw l => if l.length = 6 then .ok l else .error errInvalidFormat
    | _ => .error errInvalidFormat
  | .DTypeShort =>
    match v with
    | .vu16 n => .ok (be16enc n)
    | _ => .error errInvalidFormat
  | _ => .error errInvalidFormat

/-- The attribute appended by a successful `AddAttr` call, given the
converted data bytes `bs`: identity fields, the tag only when the resolved
definition is tagged, wire lengths (Go `byte` casts as `% 256`), and the
back-reference to the packet. -/
def mkAddedAttr (dict : attrStore) (atype vid vtype tagv : Nat) (bs : List Nat) : Attr :=
  let ad := GetAttrByAttrFull dict atype vid vtype
  { atype := atype,
    alen := (if atype = 26 then bs.length + 8 else bs.length + 2) % 256,
    vid := if atype = 26 then vid else 0,
    vtype := if atype = 26 then vtype else 0,
    vlen := if atype = 26 then (bs.length + 2) % 256 else 0,
    tag := if adTagged ad then tagv else 0,
    data := bs, ad := ad, pkt := true }

/-- Data-conversion step of `AddAttr`: an unknown identity accepts only raw
bytes; a known identity converts through `attrConv`. -/
def attrBytes (dict : attrStore) (atype vid vtype : Nat) (v : Value) :
    Except String (List Nat) :=
  match GetAttrByAttrFull dict atype vid vtype with
  | none =>
    match v with
    | .vbytes bs => .ok bs
    | _ => .error errInvalidFormat
  | some d => attrConv d.dtype v

/-- Encode-side attribute append (packet.go `(*Packet).AddAttr`, non-nil
receiver): on conversion failure the error is returned and no attribute is
appended; on success exactly one attribute is appended. -/
def Packet.AddAttr (dict : attrStore) (p : Packet) (atype vid vtype tagv : Nat)
    (v : Value) : Except String Packet :=
  match attrBytes dict atype vid vtype v with
  | .error e => .error e
  | .ok bs => .ok { p with attrs := p.attrs ++ [mkAddedAttr dict atype vid vtype tagv bs] }

/-- Wire value of an attribute as serialized: tag byte prepended exactly when
the resolved definition is tagged, then the data bytes. -/
def wireValue (a : Attr) : List Nat :=
  (if adTagged a.ad then [a.tag] else []) ++ a.data

/-- Modelled from the spec: the source's `Serialize` entry point
(packet.go) is an unimplemented stub returning nil; spec §4.5 defines its
contract, which this definition follows — each plain attribute is framed as
type / length / value with the tag byte prepended when tagged, and each VSA
as type 26 / length / 4-byte vendor id / vendor-type / vendor-length /
value.  Length bytes are single bytes (`% 256`). -/
def serializeAttr (a : Attr) : List Nat :=
  if a.atype = 26 then
    [26, (8 + (wireValue a).length) % 256] ++ be32enc a.vid ++
      [a.vtype, (2 + (wireValue a).length) % 256] ++ wireValue a
  else
    [a.atype, (2 + (wireValue a).length) % 256] ++ wireValue a

/-- Modelled from the spec: concatenated wire form of the attribute
sequence in insertion order (spec §4.5). -/
def serializeBody : List Attr → List Nat
  | [] => []
  | a :: as => serializeAttr a ++ serializeBody as

/-- Modelled from the spec: full packet serialization (spec §4.5) — the
20-byte header (code, id, big-endian total length, the stored authenticator)
followed by the attribute stream. -/
def Packet.Serialize (p : Packet) : List Nat :=
  let body := serializeBody p.attrs
  let pl := 20 + body.length
  [p.code % 256, p.id % 256, pl / 2 ^ 8 % 256, pl % 256] ++ p.auth ++ body

/-- `RadiusCode.String` (packet.go): the constant name per known code,
`Unknown(n)` otherwise. -/
def radiusCodeString (rc : Nat) : String :=
  match rc with
  | 1 => "AccessRequest"
  | 2 => "AccessAccept"
  | 3 => "AccessReject"
  | 4 => "AccountingRequest"
  | 5 => "AccountingResponse"
  | 6 => "AccountingStatus"
  | 7 => "PasswordRequest"
  | 8 => "PasswordAck"
  | 9 => "PasswordReject"
  | 10 => "AccountingMessage"
  | 11 => "AccessChallenge"
  | 12 => "StatusServer"
  | 13 => "StatusClient"
  | 40 => "DisconnectRequest"
  | 41 => "DisconnectACK"
  | 42 => "DisconnectNAK"
  | 43 => "CoARequest"
  | 44 => "CoAACK"
  | 45 => "CoANAK"
  | _ => "Unknown(" ++ toString rc ++ ")"

/-- Two lowercase hex digits of a byte (one `%02x` element). -/
def hexByte (n : Nat) : String :=
  String.mk [Nat.digitChar (n / 16 % 16), Nat.digitChar (n % 16)]

/-- Hex rendering of a byte slice (`%02x` on `[]byte`). -/
def hexBytes (l : List Nat) : String := String.join (l.map hexByte)

/-- Rendering of an evaluated value (the `%v` / `%02x` dispatch inside
packet.go `String`).  Integer and hex renderings follow Go fmt; the
time and non-IPv4 renderings are simplified placeholders (the exact fmt
output of `time.Time` / IPv6 is irrelevant to every claim). -/
def fmtEData : EData → String
  | .raw bs => hexBytes bs
  | .str bs => String.mk (bs.map Char.ofNat)
  | .u32 n => toString n
  | .u64 n => toString n
  | .u16 n => toString n
  | .byteV n => toString n
  | .timeV n => toString n
  | .ip bs => if bs.length = 4 then String.intercalate "." (bs.map toString) else hexBytes bs
  | .hw bs => String.intercalate ":" (bs.map hexByte)

/-- One attribute line of packet.go `(*Packet).String`. -/
def attrLine (a : Attr) : String :=
  (match a.ad with
   | some d => "  " ++ d.name ++ ": "
   | none =>
     if a.atype = 26 then "  VSA-" ++ toString a.vid ++ "-" ++ toString a.vtype ++ ": "
     else "  Attr-" ++ toString a.atype ++ ": ") ++
  (if adTagged a.ad then "[" ++ toString a.tag ++ "] " else "") ++
  fmtEData (edataOf a.ad a.data) ++ "\n"

/-- Body of packet.go `(*Packet).String` for a non-nil packet. -/
def Packet.toStr (p : Packet) : String :=
  "Code: " ++ radiusCodeString p.code ++ ", ID: " ++ toString p.id ++
    ", Len: " ++ toString p.len ++ ", Auth: " ++ hexBytes p.auth ++ "\n" ++
    String.join (p.attrs.map attrLine)

/-- Buffer-size rounding (`roundup64`): round up to the next multiple of 64
unless already one. -/
def roundup64 (x : Nat) : Nat :=
  if x &&& 63 ≠ 0 then x + 64 - (x &&& 63) else x

/-- Reply shell (packet.go `(*Packet).Reply`, non-nil receiver): new packet
with the request's id, authenticator, vendor ids, secret and user data, the
reply flag set, and everything else zero. -/
def Packet.ReplyP (p : Packet) : Packet :=
  { code := 0, id := p.id, len := 0, auth := p.auth, attrs := [], vids := p.vids,
    secret := p.secret, data := [], udata := p.udata, reply := true }

/-- Wire-size sum (packet.go `(*Packet).BufCalc`, non-nil receiver). -/
def Packet.BufCalcP (p : Packet) : Nat :=
  roundup64 (20 + (p.attrs.map (fun a => a.alen)).sum)

/-- packet.go `GetUserData`: nil receiver yields nil. -/
def GetUserData : Option Packet → Option Nat
  | none => none
  | some p => p.udata

/-- packet.go `SetUserData`: nil receiver changes nothing. -/
def SetUserData : Option Packet → Option Nat → Option Packet
  | none, _ => none
  | some p, u => some { p with udata := u }

/-- packet.go `GetSecret`: nil receiver yields nil. -/
def GetSecret : Option Packet → Option (List Nat)
  | none => none
  | some p => p.secret

/-- packet.go `SetSecret`: nil receiver changes nothing. -/
def SetSecret : Option Packet → List Nat → Option Packet
  | none, _ => none
  | some p, s => some { p with secret := some s }

/-- packet.go `GetCode`: nil receiver yields code 0. -/
def GetCode : Option Packet → Nat
  | none => 0
  | some p => p.code

/-- packet.go `SetCode`: nil receiver changes nothing. -/
def SetCode : Option Packet → Nat → Option Packet
  | none, _ => none
  | some p, c => some { p with code := c }

/-- packet.go `GetVIDs`: nil receiver yields nil. -/
def GetVIDs : Option Packet → Option (List Nat)
  | none => none
  | some p => some p.vids

/-- packet.go `AddAttrSimple`: nil receiver changes nothing; otherwise the
pre-built attribute is attached with its back-reference set. -/
def AddAttrSimple : Option Packet → Attr → Option Packet
  | none, _ => none
  | some p, a => some { p with attrs := p.attrs ++ [{ a with pkt := true }] }

/-- packet.go `(*Packet).String`: nil receiver yields the empty string. -/
def PacketString : Option Packet → String
  | none => ""
  | some p => p.toStr

/-- packet.go `(*Packet).Reply`: nil receiver yields nil. -/
def Reply : Option Packet → Option Packet
  | none => none
  | some p => some p.ReplyP

/-- packet.go `(*Packet).BufCalc`: nil receiver yields 0. -/
def BufCalc : Option Packet → Nat
  | none => 0
  | some p => p.BufCalcP

/-- packet.go `(*Packet).AddAttr` including the nil-receiver guard, which
returns the "Packet empty" error. -/
def AddAttrOpt (dict : attrStore) (p : Option Packet) (atype vid vtype tagv : Nat)
    (v : Value) : Except String Packet :=
  match p with
  | none => .error "Packet empty"
  | some q => Packet.AddAttr dict q atype vid vtype tagv v

/-- Attributes accumulated in a VSA walk result, whatever its outcome. -/
def vsaAttrs : VSAOut → List Attr
  | .ok as => as
  | .err _ as => as
  | .panic as => as

/-- Attribute list of a successful decode (empty otherwise). -/
def okAttrs : ParseRes → List Attr
  | .ok p => p.attrs
  | _ => []

/-- Equality of two attributes on the observable identity the round-trip
claim compares: wire type, vendor identity, tag, and evaluated value. -/
def matchAttr (x y : Attr) : Bool :=
  decide (x.atype = y.atype ∧ x.vid = y.vid ∧ x.vtype = y.vtype ∧ x.tag = y.tag ∧
    Attr.GetEData x = Attr.GetEData y)

/-- Pointwise `matchAttr` over two attribute sequences of equal length. -/
def attrsMatchB : List Attr → List Attr → Bool
  | [], [] => true
  | x :: xs, y :: ys => matchAttr x y && attrsMatchB xs ys
  | _, _ => false

/-- The round-trip success predicate: decoding the serialized packet yields a
packet with the same code, id, authenticator, and matching attribute
sequence. -/
def decodeMatchesB (dict : attrStore) (p : Packet) : Bool :=
  match ParsePacket dict p.Serialize with
  | .ok q =>
    decide (q.code = p.code ∧ q.id = p.id ∧ q.auth = p.auth) && attrsMatchB q.attrs p.attrs
  | _ => false

/-- Packets built solely via `AddAttr` from an attribute-less shell. -/
inductive BuiltVia (dict : attrStore) : Packet → Prop where
  | base (p : Packet) : p.attrs = [] → BuiltVia dict p
  | step (p p' : Packet) (atype vid vtype tagv : Nat) (v : Value) :
      BuiltVia dict p → Packet.AddAttr dict p atype vid vtype tagv v = .ok p' →
      BuiltVia dict p'

/-- Structural facts `AddAttr` guarantees for every attribute it appends:
the resolved definition is the dictionary lookup of the attribute's own
identity, the tag is zero unless the definition is tagged, and vendor
identity is zero for non-VSA types. -/
def attrFromAdd (dict : attrStore) (a : Attr) : Prop :=
  a.ad = GetAttrByAttrFull dict a.atype a.vid a.vtype ∧
  (adTagged a.ad = false → a.tag = 0) ∧
  (a.atype ≠ 26 → a.vid = 0 ∧ a.vtype = 0)

/-- Wire-format-fitting bounds for one attribute: byte-ranged identity
fields and a wire value short enough for the one-byte length fields
(values longer than 253 bytes — 247 inside a VSA — cannot be framed). -/
def wireOK (a : Attr) : Prop :=
  a.atype < 256 ∧ a.vtype < 256 ∧ a.vid < 2 ^ 32 ∧ a.tag < 256 ∧
  (wireValue a).length ≤ (if a.atype = 26 then 247 else 253)

instance (a : Attr) : Decidable (wireOK a) := by
  unfold wireOK; infer_instance

instance (dict : attrStore) (a : Attr) : Decidable (attrFromAdd dict a) := by
  unfold attrFromAdd; infer_instance

/-- Dictionary with attribute type 1 registered as tagged, for exercising the
tag-extraction path. -/
def c2dict : attrStore :=
  (AddAttrFull emptyDict "Tunnel-Type" 1 0 0 .DTypeInt .AttrEncNone true).1

/-- A 22-byte packet whose single attribute (type 1, length 2) is tagged per
`c2dict` but has an empty value. -/
def c2buf : List Nat := [1, 0, 0, 22] ++ List.replicate 16 0 ++ [1, 2]

/-- A 22-byte packet, declared length 22, one empty attribute of type 77. -/
def c3b1 : List Nat := [1, 0, 0, 22] ++ List.replicate 16 0 ++ [77, 2]

/-- The same 22 bytes followed by two trailing bytes that form another
attribute TLV after the declared length. -/
def c3b2 : List Nat := c3b1 ++ [78, 2]

/-- A 24-byte packet whose first attribute is fine and whose second TLV has
length byte 0. -/
def c4buf : List Nat := [1, 0, 0, 24] ++ List.replicate 16 0 ++ [77, 2, 5, 0]

/-- The attribute built before the error in `c4buf`, as returned after the
deferred cleanup cleared its back-reference. -/
def c4ds : List Attr :=
  [{ atype := 77, alen := 2, vid := 0, vtype := 0, vlen := 0, tag := 0,
     data := [], ad := none, pkt := false }]

/-- A minimal 20-byte packet with no attributes. -/
def c6buf : List Nat := [2, 9, 0, 20] ++ List.replicate 16 1

/-- A uint32-typed dictionary entry. -/
def c7ad : AttrData := ⟨"NAS-Port", 5, 0, 0, .DTypeInt, .AttrEncNone, false⟩

/-- A uint32-typed attribute carrying only 3 bytes of data. -/
def c7attr : Attr :=
  { atype := 5, alen := 5, vid := 0, vtype := 0, vlen := 0, tag := 0,
    data := [1, 2, 3], ad := some c7ad, pkt := true }

/-- Dictionary with one registered definition, for the duplicate-identity
witness. -/
def c8d1 : attrStore :=
  (AddAttrFull emptyDict "User-Name" 1 0 0 .DTypeString .AttrEncNone false).1

/-- Dictionary for the `AddAttr` witness. -/
def c9dict : attrStore :=
  (AddAttrFull emptyDict "NAS-Port" 5 0 0 .DTypeInt .AttrEncNone false).1

/-- An attribute-less packet under construction. -/
def c9pkt : Packet :=
  { code := 1, id := 3, len := 0, auth := List.replicate 16 0, attrs := [],
    vids := [], secret := none, data := [], udata := none, reply := false }

/-- Dictionary for the round-trip instances: a plain string attribute, a
tagged uint32 attribute, and a vendor 311 / type 1 uint32 VSA. -/
def c1dict : attrStore :=
  (AddAttrFull
    ((AddAttrFull
      ((AddAttrFull emptyDict "User-Name" 1 0 0 .DTypeString .AttrEncNone false).1)
      "Tunnel-Type" 64 0 0 .DTypeInt .AttrEncNone true).1)
    "Acct-Thing" 26 311 1 .DTypeInt .AttrEncNone false).1

/-- An attribute-less shell with byte-ranged header fields and a 16-byte
authenticator. -/
def c1shell : Packet :=
  { code := 1, id := 7, len := 0, auth := List.replicate 16 9, attrs := [],
    vids := [], secret := none, data := [], udata := none, reply := false }

/-- `c1shell` after `AddAttr` of the string "hi" (type 1). -/
def c1pkt : Packet :=
  { c1shell with attrs := c1shell.attrs ++ [mkAddedAttr c1dict 1 0 0 0 [104, 105]] }

/-- `c1pkt` after `AddAttr` of the tagged uint32 attribute (type 64, tag 3). -/
def c1pkt2 : Packet :=
  { c1pkt with attrs := c1pkt.attrs ++ [mkAddedAttr c1dict 64 0 0 3 (be32enc 1)] }

/-- `c1pkt2` after `AddAttr` of the vendor 311 / type 1 uint32 VSA. -/
def c1pkt3 : Packet :=
  { c1pkt2 with attrs := c1pkt2.attrs ++ [mkAddedAttr c1dict 26 311 1 0 (be32enc 5)] }

/-- `c1shell` after `AddAttr` of a valid 254-byte string value — too long
for the one-byte wire length field. -/
def c1bigpkt : Packet :=
  { c1shell with
    attrs := c1shell.attrs ++ [mkAddedAttr c1dict 1 0 0 0 (List.replicate 254 97)] }

/-! Helper lemmas about the cursor and the walk loops. -/

theorem getAttr_err_cases (rb : rBuf) (e : PErr) (h : getAttr rb = .error e) :
    e = .noData ∨ e = .invalid := by
  simp only [getAttr] at h
  split at h
  · exact Or.inl (by injection h with h; exact h.symm)
  · split at h
    · exact Or.inr (by injection h with h; exact h.symm)
    · split at h
      · exact Or.inl (by injection h with h; exact h.symm)
      · exact absurd h (by simp)

theorem getAttr_invalid_iff (rb : rBuf) :
    getAttr rb = .error .invalid ↔ (2 ≤ rb.bl ∧ rb.buf.getD (rb.bp + 1) 0 < 2) := by
  simp only [getAttr]
  split <;> rename_i h1
  · exact iff_of_false (by simp) (by omega)
  · split <;> rename_i h2
    · exact iff_of_true rfl ⟨by omega, h2⟩
    · split <;> rename_i h3
      · exact iff_of_false (by simp) (by omega)
      · exact iff_of_false (by simp) (by omega)

theorem getAttr_noData_iff (rb : rBuf) :
    getAttr rb = .error .noData ↔
      (rb.bl < 2 ∨ (2 ≤ rb.buf.getD (rb.bp + 1) 0 ∧ rb.bl < rb.buf.getD (rb.bp + 1) 0)) := by
  simp only [getAttr]
  split <;> rename_i h1
  · exact iff_of_true rfl (Or.inl h1)
  · split <;> rename_i h2
    · exact iff_of_false (by simp) (by omega)
    · split <;> rename_i h3
      · exact iff_of_true rfl (Or.inr ⟨by omega, by omega⟩)
      · exact iff_of_false (by simp) (by omega)

theorem getAttr_ok_spec (rb : rBuf) (t : Nat) (v : List Nat) (rb' : rBuf)
    (h : getAttr rb = .ok (t, v, rb')) :
    2 ≤ rb.bl ∧ 2 ≤ rb.buf.getD (rb.bp + 1) 0 ∧
    rb.buf.getD (rb.bp + 1) 0 ≤ rb.bl ∧
    t = rb.buf.getD rb.bp 0 ∧
    v = (rb.buf.drop (rb.bp + 2)).take (rb.buf.getD (rb.bp + 1) 0 - 2) ∧
    rb' = { buf := rb.buf, bp := rb.bp + 2 + (rb.buf.getD (rb.bp + 1) 0 - 2),
            bl := rb.bl - 2 - (rb.buf.getD (rb.bp + 1) 0 - 2) } := by
  simp only [getAttr] at h
  split at h <;> rename_i h1
  · exact absurd h (by simp)
  · split at h <;> rename_i h2
    · exact absurd h (by simp)
    · split at h <;> rename_i h3
      · exact absurd h (by simp)
      · simp only [Except.ok.injEq, Prod.mk.injEq] at h
        obtain ⟨ht, hv, hr⟩ := h
        exact ⟨by omega, by omega, by omega, ht.symm, hv.symm, hr.symm⟩

theorem getAttr_append (B : List Nat) (k t lb : Nat) (X R : List Nat)
    (hd : B.drop k = t :: lb :: (X ++ R)) (hlb : lb = X.length + 2) :
    getAttr ⟨B, k, 2 + X.length + R.length⟩ =
      .ok (t, X, ⟨B, k + 2 + X.length, R.length⟩) := by
  have hg0 : B.getD k 0 = t := by
    have := congrArg (fun l => List.getD l 0 0) hd
    simpa [List.getD_eq_getElem?_getD, List.getElem?_drop] using this
  have hg1 : B.getD (k + 1) 0 = lb := by
    have := congrArg (fun l => List.getD l 1 0) hd
    simpa [List.getD_eq_getElem?_getD, List.getElem?_drop] using this
  have hd2 : B.drop (k + 2) = X ++ R := by
    have : (B.drop k).drop 2 = B.drop (k + 2) := by
      rw [List.drop_drop]
    rw [← this, hd]; rfl
  simp only [getAttr]
  rw [if_neg (by simp; omega)]
  simp only [hg0, hg1]
  rw [if_neg (by omega)]
  rw [if_neg (by omega)]
  have hval : (B.drop (k + 2)).take (lb - 2) = X := by
    rw [hd2, hlb]; simp [List.take_left]
  rw [hval]
  have : k + 2 + (lb - 2) = k + 2 + X.length := by omega
  rw [this]
  have : 2 + X.length + R.length - 2 - (lb - 2) = R.length := by omega
  rw [this]

theorem parseLoopF_exit (dict : attrStore) (fuel : Nat) (rb : rBuf)
    (acc : List Attr) (vids : List Nat) (h : rb.bl < 2) :
    parseLoopF dict fuel rb acc vids = .ok acc vids := by
  cases fuel <;> simp [parseLoopF, Nat.not_le.mpr h]

theorem parseVSAF_exit (dict : attrStore) (fuel vid : Nat) (rb : rBuf)
    (acc : List Attr) (h : rb.bl < 2) :
    parseVSAF dict fuel vid rb acc = .ok acc := by
  cases fuel <;> simp [parseVSAF, Nat.not_le.mpr h]

theorem parseLoopF_getAttr_err (dict : attrStore) (fuel : Nat) (rb : rBuf)
    (acc : List Attr) (vids : List Nat) (e : PErr)
    (hbl : 2 ≤ rb.bl) (hg : getAttr rb = .error e) :
    parseLoopF dict (fuel + 1) rb acc vids = .err e acc := by
  simp only [parseLoopF]
  rw [if_pos hbl, hg]

theorem parseLoopF_step_plain (dict : attrStore) (fuel : Nat) (rb rb' : rBuf)
    (acc : List Attr) (vids : List Nat) (aty : Nat) (advl : List Nat) (a : Attr)
    (hbl : 2 ≤ rb.bl) (hg : getAttr rb = .ok (aty, advl, rb')) (hne : aty ≠ 26)
    (hp : parseAttrF dict aty advl = some a) :
    parseLoopF dict (fuel + 1) rb acc vids = parseLoopF dict fuel rb' (acc ++ [a]) vids := by
  simp only [parseLoopF]
  rw [if_pos hbl, hg]
  simp only [if_pos hne, hp]

theorem parseLoopF_step_vsa_ok (dict : attrStore) (fuel : Nat) (rb rb' : rBuf)
    (acc : List Attr) (vids : List Nat) (advl : List Nat) (vid : Nat) (vas : List Attr)
    (hbl : 2 ≤ rb.bl) (hg : getAttr rb = .ok (26, advl, rb'))
    (hv : parseVSA dict advl = (vid, .ok vas)) :
    parseLoopF dict (fuel + 1) rb acc vids =
      parseLoopF dict fuel rb' (acc ++ vas) (if vid ∈ vids then vids else vids ++ [vid]) := by
  simp only [parseLoopF]
  rw [if_pos hbl, hg]
  simp only [if_neg (by simp : ¬(26 ≠ 26)), hv]

theorem parseLoopF_step_vsa_err (dict : attrStore) (fuel : Nat) (rb rb' : rBuf)
    (acc : List Attr) (vids : List Nat) (advl : List Nat) (vid : Nat) (e : PErr)
    (vas : List Attr)
    (hbl : 2 ≤ rb.bl) (hg : getAttr rb = .ok (26, advl, rb'))
    (hv : parseVSA dict advl = (vid, .err e vas)) :
    parseLoopF dict (fuel + 1) rb acc vids = .err e (acc ++ vas) := by
  simp only [parseLoopF]
  rw [if_pos hbl, hg]
  simp only [if_neg (by simp : ¬(26 ≠ 26)), hv]

theorem parseVSAF_err_cases (dict : attrStore) :
    ∀ (fuel vid : Nat) (rb : rBuf) (acc : List Attr) (e : PErr) (as' : List Attr),
      parseVSAF dict fuel vid rb acc = .err e as' → e = .noData ∨ e = .invalid := by
  intro fuel
  induction fuel with
  | zero =>
    intro vid rb acc e as' h
    simp only [parseVSAF] at h
    split at h
    · exact Or.inl (by injection h with h _; exact h.symm)
    · exact absurd h (by simp)
  | succ n ih =>
    intro vid rb acc e as' h
    simp only [parseVSAF] at h
    split at h <;> rename_i h1
    · split at h <;> rename_i hg
      · rename_i e'
        have hcases := getAttr_err_cases _ _ hg
        simp only [VSAOut.err.injEq] at h
        exact h.1 ▸ hcases
      · split at h <;> rename_i htag
        · split at h
          · exact absurd h (by simp)
          · exact ih _ _ _ _ _ h
        · exact ih _ _ _ _ _ h
    · exact absurd h (by simp)

theorem parseLoopF_err_cases (dict : attrStore) :
    ∀ (fuel : Nat) (rb : rBuf) (acc : List Attr) (vids : List Nat) (e : PErr)
      (as' : List Attr),
      parseLoopF dict fuel rb acc vids = .err e as' →
      e = .noData ∨ e = .invalid ∨ e = .vsaShort := by
  intro fuel
  induction fuel with
  | zero =>
    intro rb acc vids e as' h
    simp only [parseLoopF] at h
    split at h
    · exact Or.inl (by injection h with h _; exact h.symm)
    · exact absurd h (by simp)
  | succ n ih =>
    intro rb acc vids e as' h
    simp only [parseLoopF] at h
    split at h <;> rename_i h1
    · split at h <;> rename_i hg
      · rename_i e'
        have hcases := getAttr_err_cases _ _ hg
        simp only [LoopOut.err.injEq] at h
        rcases hcases with hc | hc <;> simp [h.1 ▸ hc]
      · split at h <;> rename_i haty
        · split at h
          · exact absurd h (by simp)
          · exact ih _ _ _ _ _ h
        · split at h <;> rename_i hvsa
          · exact ih _ _ _ _ _ h
          · rename_i vid' e' vas'
            simp only [LoopOut.err.injEq] at h
            unfold parseVSA at hvsa
            split at hvsa
            · simp only [Prod.mk.injEq, VSAOut.err.injEq] at hvsa
              simp [← h.1, ← hvsa.2.1]
            · simp only [Prod.mk.injEq] at hvsa
              have := parseVSAF_err_cases dict _ _ _ _ _ _ hvsa.2
              rcases this with hc | hc <;> simp [h.1 ▸ hc]
          · exact absurd h (by simp)
    · exact absurd h (by simp)

/-- C2: the claim asserts ParsePacket never indexes out of bounds, in
particular while extracting the tag byte of a tagged attribute with an empty
value.  The code contradicts it: with attribute type 1 registered as tagged,
the 22-byte packet `c2buf` ends in a TLV of declared length 2 (empty value),
and `parseAttr` evaluates `ad[0]` on the empty value slice — an
out-of-range index that panics.  The model returns the explicit `panic`
result on exactly this access. -/
theorem c2_tagged_empty_value_panics : ParsePacket c2dict c2buf = ParseRes.panic := by
  decide

/-- C3 counterexample: two accepted buffers with the same declared length 22
that agree on their first 22 bytes but decode to different attribute
sequences — the two bytes after the declared length become a second
attribute, so the decode result does not depend only on the first `pl`
bytes. -/
theorem c3_trailing_bytes_counterexample :
    List.take 22 c3b2 = c3b1 ∧ declLen c3b1 = 22 ∧ declLen c3b2 = 22 ∧
    c3b1.length = 22 ∧ c3b2.length = 24 ∧
    (okAttrs (ParsePacket emptyDict c3b1)).length = 1 ∧
    (okAttrs (ParsePacket emptyDict c3b2)).length = 2 ∧
    ParsePacket emptyDict c3b1 ≠ ParsePacket emptyDict c3b2 := by
  decide

/-- C3 (amended): the attribute walk covers every byte of the supplied
buffer from offset 20, so the prefix-independence property survives only
when the buffer carries no bytes beyond the declared length: two buffers
whose length equals the common declared length `pl` and which agree on
their first `pl` bytes decode identically. -/
theorem c3_amended_full_buffer_determines (dict : attrStore) (b1 b2 : List Nat)
    (pl : Nat) (h1 : b1.length = pl) (h2 : b2.length = pl)
    (h : List.take pl b1 = List.take pl b2) :
    ParsePacket dict b1 = ParsePacket dict b2 := by
  subst h1
  rw [List.take_length] at h
  rw [← h2, List.take_length] at h
  rw [h]

theorem c3_amended_witness :
    ParsePacket emptyDict c3b1 = ParsePacket emptyDict c3b1 :=
  c3_amended_full_buffer_determines emptyDict c3b1 c3b1 22 (by decide) (by decide) rfl

/-- C4: whenever `ParsePacket` returns a framing or length error after the
header was accepted, it returns an error and no packet, and every attribute
constructed before the failure has had its back-reference to the packet
cleared by the deferred cleanup. -/
theorem c4_error_clears_backrefs (dict : attrStore) (buf : List Nat) (e : PErr)
    (ds : List Attr) (h : ParsePacket dict buf = ParseRes.err e ds) :
    ds.all (fun a => a.pkt == false) = true := by
  simp only [ParsePacket] at h
  split at h
  · simp only [ParseRes.err.injEq] at h
    rw [← h.2]; rfl
  · split at h
    · simp only [ParseRes.err.injEq] at h
      rw [← h.2]; rfl
    · split at h
      · exact absurd h (by simp)
      · split at h <;> rename_i hloop
        · exact absurd h (by simp)
        · simp only [ParseRes.err.injEq] at h
          rw [← h.2]
          simp [List.all_map]
        · exact absurd h (by simp)

theorem c4_witness :
    ParsePacket emptyDict c4buf = ParseRes.err PErr.invalid c4ds ∧
    c4ds.all (fun a => a.pkt == false) = true :=
  ⟨by decide, c4_error_clears_backrefs emptyDict c4buf PErr.invalid c4ds (by decide)⟩

/-- C10: every exported Packet method is total on a nil receiver —
the getters return nil / zero / the empty string, the setters and
`AddAttrSimple` change nothing, `Reply` returns nil, `BufCalc` returns 0,
and `AddAttr` returns the "Packet empty" error; no nil-receiver call
panics (every wrapper is a total function on `Option Packet`). -/
theorem c10_nil_receiver_total :
    GetUserData none = none ∧ GetSecret none = none ∧ GetVIDs none = none ∧
    GetCode none = 0 ∧ PacketString none = "" ∧ BufCalc none = 0 ∧
    Reply none = none ∧
    (∀ u, SetUserData none u = none) ∧ (∀ s, SetSecret none s = none) ∧
    (∀ c, SetCode none c = none) ∧ (∀ a, AddAttrSimple none a = none) ∧
    (∀ dict atype vid vtype tagv v,
      AddAttrOpt dict none atype vid vtype tagv v = .error "Packet empty") :=
  ⟨rfl, rfl, rfl, rfl, rfl, rfl, rfl, fun _ => rfl, fun _ => rfl, fun _ => rfl,
   fun _ => rfl, fun _ _ _ _ _ _ => rfl⟩

theorem parseLoop_err_cases (dict : attrStore) (rb : rBuf) (acc : List Attr)
    (vids : List Nat) (e : PErr) (as' : List Attr)
    (h : parseLoop dict rb acc vids = .err e as') :
    e = .noData ∨ e = .invalid ∨ e = .vsaShort := by
  unfold parseLoop at h
  exact parseLoopF_err_cases dict _ _ _ _ _ _ h

/-- C6: ParsePacket rejects at the header stage exactly when the buffer is
shorter than 20 bytes (tooShort) or the declared big-endian length from
bytes 2-3 is below 20, above 4096 or beyond the buffer (lenError); every
returned packet carries the header's code, id, declared length and 16-byte
authenticator; and a declared length of exactly 20 decodes successfully
with zero attributes and an empty vendor-id set. -/
theorem c6_header_stage (dict : attrStore) (buf : List Nat) :
    (ParsePacket dict buf = ParseRes.err .tooShort [] ↔ buf.length < 20) ∧
    (ParsePacket dict buf = ParseRes.err .lenError [] ↔
      (20 ≤ buf.length ∧
        (declLen buf < 20 ∨ 4096 < declLen buf ∨ buf.length < declLen buf))) ∧
    (∀ p, ParsePacket dict buf = ParseRes.ok p →
      p.code = buf.getD 0 0 ∧ p.id = buf.getD 1 0 ∧ p.len = declLen buf ∧
      p.auth = (buf.drop 4).take 16) ∧
    (20 ≤ buf.length → declLen buf = 20 →
      ParsePacket dict buf = ParseRes.ok (hdrPacket buf) ∧
      (hdrPacket buf).attrs = [] ∧ (hdrPacket buf).vids = []) := by
  refine ⟨?_, ?_, ?_, ?_⟩
  · simp only [ParsePacket]
    split <;> rename_i hlen
    · exact iff_of_true rfl hlen
    · split <;> rename_i hpl
      · exact iff_of_false (by simp) hlen
      · split <;> rename_i h20
        · exact iff_of_false (by simp) hlen
        · split <;> rename_i hloop
          · exact iff_of_false (by simp) hlen
          · rcases parseLoop_err_cases dict _ _ _ _ _ hloop with h | h | h <;>
              exact iff_of_false (by simp [h]) hlen
          · exact iff_of_false (by simp) hlen
  · simp only [ParsePacket]
    split <;> rename_i hlen
    · exact iff_of_false (by simp) (by omega)
    · split <;> rename_i hpl
      · exact iff_of_true rfl ⟨by omega, by omega⟩
      · split <;> rename_i h20
        · exact iff_of_false (by simp) (by omega)
        · split <;> rename_i hloop
          · exact iff_of_false (by simp) (by omega)
          · rcases parseLoop_err_cases dict _ _ _ _ _ hloop with h | h | h <;>
              exact iff_of_false (by simp [h]) (by omega)
          · exact iff_of_false (by simp) (by omega)
  · intro p hp
    simp only [ParsePacket] at hp
    split at hp <;> rename_i hlen
    · exact absurd hp (by simp)
    · split at hp <;> rename_i hpl
      · exact absurd hp (by simp)
      · split at hp <;> rename_i h20
        · simp only [ParseRes.ok.injEq] at hp
          subst hp
          exact ⟨rfl, rfl, rfl, rfl⟩
        · split at hp <;> rename_i hloop
          · simp only [ParseRes.ok.injEq] at hp
            subst hp
            exact ⟨rfl, rfl, rfl, rfl⟩
          · exact absurd hp (by simp)
          · exact absurd hp (by simp)
  · intro hlen h20
    refine ⟨?_, rfl, rfl⟩
    simp only [ParsePacket]
    rw [if_neg (by omega), if_neg (by omega), if_pos h20]

/-- C7: `GetEData` returns the raw data bytes when the attribute has no
resolved definition, when the definition's encryption kind is not none, or
when the data length does not exactly match the type's required length
(types without a conversion case always fall back to raw); only on an exact
length match does it return the typed value — string for any length,
big-endian uint32/uint64/uint16, a 4- or 16-byte address, 6-byte hardware
address, single byte, unix time from 4 bytes. -/
theorem c7_edata_dispatch (a : Attr) :
    (a.ad = none → a.GetEData = .raw a.data) ∧
    (∀ d, a.ad = some d → d.enc ≠ .AttrEncNone → a.GetEData = .raw a.data) ∧
    (∀ d, a.ad = some d → d.enc = .AttrEncNone →
      ((d.dtype = .DTypeString → a.GetEData = .str a.data) ∧
       (d.dtype = .DTypeIP4 →
         (a.data.length = 4 → a.GetEData = .ip a.data) ∧
         (a.data.length ≠ 4 → a.GetEData = .raw a.data)) ∧
       (d.dtype = .DTypeInt →
         (a.data.length = 4 → a.GetEData = .u32 (beBytes a.data)) ∧
         (a.data.length ≠ 4 → a.GetEData = .raw a.data)) ∧
       (d.dtype = .DTypeInt64 →
         (a.data.length = 8 → a.GetEData = .u64 (beBytes a.data)) ∧
         (a.data.length ≠ 8 → a.GetEData = .raw a.data)) ∧
       (d.dtype = .DTypeDate →
         (a.data.length = 4 → a.GetEData = .timeV (beBytes a.data)) ∧
         (a.data.length ≠ 4 → a.GetEData = .raw a.data)) ∧
       (d.dtype = .DTypeIfID →
         (a.data.length = 8 → a.GetEData = .u64 (beBytes a.data)) ∧
         (a.data.length ≠ 8 → a.GetEData = .raw a.data)) ∧
       (d.dtype = .DTypeIP6 →
         (a.data.length = 16 → a.GetEData = .ip a.data) ∧
         (a.data.length ≠ 16 → a.GetEData = .raw a.data)) ∧
       (d.dtype = .DTypeByte →
         (a.data.length = 1 → a.GetEData = .byteV (a.data.getD 0 0)) ∧
         (a.data.length ≠ 1 → a.GetEData = .raw a.data)) ∧
       (d.dtype = .DTypeEth →
         (a.data.length = 6 → a.GetEData = .hw a.data) ∧
         (a.data.length ≠ 6 → a.GetEData = .raw a.data)) ∧
       (d.dtype = .DTypeShort →
         (a.data.length = 2 → a.GetEData = .u16 (beBytes a.data)) ∧
         (a.data.length ≠ 2 → a.GetEData = .raw a.data)) ∧
       (d.dtype = .DTypeRaw ∨ d.dtype = .DTypeIP4Pfx ∨ d.dtype = .DTypeIP6Pfx ∨
          d.dtype = .DTypeSInt ∨ d.dtype = .DTypeVSA →
         a.GetEData = .raw a.data))) := by
  refine ⟨?_, ?_, ?_⟩
  · intro h; simp [Attr.GetEData, edataOf, h]
  · intro d had henc; simp [Attr.GetEData, edataOf, had, henc]
  · intro d had henc
    refine ⟨?_, ?_, ?_, ?_, ?_, ?_, ?_, ?_, ?_, ?_, ?_⟩
    · intro hdt; simp [Attr.GetEData, edataOf, had, henc, hdt]
    · intro hdt
      exact ⟨fun hl => by simp [Attr.GetEData, edataOf, had, henc, hdt, hl],
             fun hl => by simp [Attr.GetEData, edataOf, had, henc, hdt, hl]⟩
    · intro hdt
      exact ⟨fun hl => by simp [Attr.GetEData, edataOf, had, henc, hdt, hl],
             fun hl => by simp [Attr.GetEData, edataOf, had, henc, hdt, hl]⟩
    · intro hdt
      exact ⟨fun hl => by simp [Attr.GetEData, edataOf, had, henc, hdt, hl],
             fun hl => by simp [Attr.GetEData, edataOf, had, henc, hdt, hl]⟩
    · intro hdt
      exact ⟨fun hl => by simp [Attr.GetEData, edataOf, had, henc, hdt, hl],
             fun hl => by simp [Attr.GetEData, edataOf, had, henc, hdt, hl]⟩
    · intro hdt
      exact ⟨fun hl => by simp [Attr.GetEData, edataOf, had, henc, hdt, hl],
             fun hl => by simp [Attr.GetEData, edataOf, had, henc, hdt, hl]⟩
    · intro hdt
      exact ⟨fun hl => by simp [Attr.GetEData, edataOf, had, henc, hdt, hl],
             fun hl => by simp [Attr.GetEData, edataOf, had, henc, hdt, hl]⟩
    · intro hdt
      exact ⟨fun hl => by simp [Attr.GetEData, edataOf, had, henc, hdt, hl],
             fun hl => by simp [Attr.GetEData, edataOf, had, henc, hdt, hl]⟩
    · intro hdt
      exact ⟨fun hl => by simp [Attr.GetEData, edataOf, had, henc, hdt, hl],
             fun hl => by simp [Attr.GetEData, edataOf, had, henc, hdt, hl]⟩
    · intro hdt
      exact ⟨fun hl => by simp [Attr.GetEData, edataOf, had, henc, hdt, hl],
             fun hl => by simp [Attr.GetEData, edataOf, had, henc, hdt, hl]⟩
    · intro hdt
      rcases hdt with h | h | h | h | h <;> simp [Attr.GetEData, edataOf, had, henc, h]

theorem c7_witness : Attr.GetEData c7attr = EData.raw [1, 2, 3] :=
  (((c7_edata_dispatch c7attr).2.2 c7ad rfl rfl).2.2.1 rfl).2 (by decide)

/-- C8: `AddAttrFull` fails exactly when the normalized name key or the
composite (type, vendor, vendortype) key is already registered; on failure
the store (both indices) is unchanged, so earlier definitions remain
retrievable; on success the new definition is retrievable through both
indices. -/
theorem c8_dictionary_uniqueness (d : attrStore) (name : String)
    (atype vid vtype : Nat) (dtype : AttrDType) (enc : AttrEnc) (tg : Bool) :
    ((AddAttrFull d name atype vid vtype dtype enc tg).2.isSome ↔
      ((GetAttrByName d name).isSome ∨ (GetAttrByAttrFull d atype vid vtype).isSome)) ∧
    ((AddAttrFull d name atype vid vtype dtype enc tg).2.isSome →
      (AddAttrFull d name atype vid vtype dtype enc tg).1 = d) ∧
    ((AddAttrFull d name atype vid vtype dtype enc tg).2 = none →
      GetAttrByName (AddAttrFull d name atype vid vtype dtype enc tg).1 name =
        some ⟨name, atype, vid, vtype, dtype, enc, tg⟩ ∧
      GetAttrByAttrFull (AddAttrFull d name atype vid vtype dtype enc tg).1 atype vid vtype =
        some ⟨name, atype, vid, vtype, dtype, enc, tg⟩) := by
  simp only [AddAttrFull]
  split <;> rename_i hdup
  · refine ⟨?_, fun _ => rfl, ?_⟩
    · simpa [GetAttrByName, GetAttrByAttrFull] using hdup
    · intro h; exact absurd h (by simp)
  · refine ⟨?_, ?_, ?_⟩
    · exact iff_of_false (by simp) (by simpa [GetAttrByName, GetAttrByAttrFull] using hdup)
    · intro h; exact absurd h (by simp)
    · intro _
      constructor
      · simp [GetAttrByName, List.lookup]
      · simp [GetAttrByAttrFull, List.lookup]

theorem c8_witness :
    (AddAttrFull c8d1 "USER-NAME" 2 0 0 .DTypeRaw .AttrEncNone false).2.isSome = true ∧
    (AddAttrFull c8d1 "USER-NAME" 2 0 0 .DTypeRaw .AttrEncNone false).1 = c8d1 ∧
    GetAttrByName c8d1 "User-Name" =
      some ⟨"User-Name", 1, 0, 0, .DTypeString, .AttrEncNone, false⟩ :=
  ⟨(c8_dictionary_uniqueness c8d1 "USER-NAME" 2 0 0 .DTypeRaw .AttrEncNone false).1.mpr
      (Or.inl (by decide)),
   (c8_dictionary_uniqueness c8d1 "USER-NAME" 2 0 0 .DTypeRaw .AttrEncNone false).2.1
      (by decide),
   ((c8_dictionary_uniqueness emptyDict "User-Name" 1 0 0 .DTypeString .AttrEncNone
      false).2.2 rfl).1⟩

theorem attrConv_err_eq (dt : AttrDType) (v : Value) (e : String)
    (h : attrConv dt v = .error e) : e = errInvalidFormat := by
  cases dt <;> cases v <;>
    simp only [attrConv] at h <;>
    first
    | exact Except.noConfusion h
    | (injection h with h; exact h.symm)
    | (split at h <;> first
        | exact Except.noConfusion h
        | (injection h with h; exact h.symm))

/-- C9: on a non-nil packet, `AddAttr` returns the format error exactly when
the identity is unknown to the dictionary and the value is not raw bytes,
or the identity is known and the encode-direction conversion fails; every
error it returns is the format error (so in the functional model no
attribute is appended and the packet is unchanged); on success exactly one
attribute is appended — `mkAddedAttr` — whose tag is stored only when the
resolved definition is tagged and whose back-reference points at the
packet. -/
theorem c9_addattr_errors_and_append (dict : attrStore) (p : Packet)
    (atype vid vtype tagv : Nat) (v : Value) :
    (Packet.AddAttr dict p atype vid vtype tagv v = .error errInvalidFormat ↔
      (match GetAttrByAttrFull dict atype vid vtype with
       | none => isBytesVal v = false
       | some d => attrConv d.dtype v = .error errInvalidFormat)) ∧
    (∀ e, Packet.AddAttr dict p atype vid vtype tagv v = .error e →
      e = errInvalidFormat) ∧
    (∀ bs, attrBytes dict atype vid vtype v = .ok bs →
      Packet.AddAttr dict p atype vid vtype tagv v =
        .ok { p with attrs := p.attrs ++ [mkAddedAttr dict atype vid vtype tagv bs] }) ∧
    (∀ bs, (mkAddedAttr dict atype vid vtype tagv bs).pkt = true ∧
      (mkAddedAttr dict atype vid vtype tagv bs).tag =
        (if adTagged (GetAttrByAttrFull dict atype vid vtype) then tagv else 0) ∧
      (mkAddedAttr dict atype vid vtype tagv bs).data = bs) := by
  refine ⟨?_, ?_, ?_, ?_⟩
  · simp only [Packet.AddAttr, attrBytes]
    cases hl : GetAttrByAttrFull dict atype vid vtype with
    | none =>
      cases v <;> simp [isBytesVal]
    | some d =>
      cases hc : attrConv d.dtype v with
      | error e =>
        have he := attrConv_err_eq _ _ _ hc
        subst he
        simp [hc]
      | ok bs => simp [hc]
  · intro e h
    simp only [Packet.AddAttr, attrBytes] at h
    cases hl : GetAttrByAttrFull dict atype vid vtype with
    | none =>
      rw [hl] at h
      cases v <;> simp only at h <;> first
        | exact Except.noConfusion h
        | (injection h with h; exact h.symm)
    | some d =>
      rw [hl] at h
      dsimp only at h
      cases hc : attrConv d.dtype v with
      | error e' =>
        rw [hc] at h
        injection h with h
        exact h ▸ attrConv_err_eq _ _ _ hc
      | ok bs =>
        rw [hc] at h
        exact Except.noConfusion h
  · intro bs h
    simp only [Packet.AddAttr, h]
  · intro bs
    exact ⟨rfl, rfl, rfl⟩

theorem c9_witness :
    Packet.AddAttr c9dict c9pkt 5 0 0 0 (Value.vu32 80) =
      .ok { c9pkt with attrs := c9pkt.attrs ++ [mkAddedAttr c9dict 5 0 0 0 (be32enc 80)] } ∧
    Packet.AddAttr c9dict c9pkt 5 0 0 0 (Value.vstr [97]) = .error errInvalidFormat :=
  ⟨(c9_addattr_errors_and_append c9dict c9pkt 5 0 0 0 (Value.vu32 80)).2.2.1
      (be32enc 80) rfl,
   (c9_addattr_errors_and_append c9dict c9pkt 5 0 0 0 (Value.vstr [97])).1.mpr (by rfl)⟩

theorem take_self_length (y : List Nat) (m : Nat) :
    y.take m = y.take (y.take m).length := by
  rcases le_or_lt m y.length with h | h
  · rw [List.length_take, Nat.min_eq_left h]
  · rw [List.take_of_length_le h.le, List.take_length]

theorem drop_of_take_form (B : List Nat) (k m j : Nat) :
    ∃ n, ((B.drop k).take m).drop j =
      (B.drop n).take ((((B.drop k).take m).drop j).length) := by
  refine ⟨k + j, ?_⟩
  rw [List.drop_take, List.drop_drop]
  exact take_self_length _ _

theorem parseVSAF_getAttr_err (dict : attrStore) (fuel vid : Nat) (rb : rBuf)
    (acc : List Attr) (e : PErr) (hbl : 2 ≤ rb.bl) (hg : getAttr rb = .error e) :
    parseVSAF dict (fuel + 1) vid rb acc = .err e acc := by
  simp only [parseVSAF]
  rw [if_pos hbl, hg]

theorem parseVSAF_panic (dict : attrStore) (fuel vid : Nat) (rb rb' : rBuf)
    (acc : List Attr) (vt : Nat)
    (hbl : 2 ≤ rb.bl) (hg : getAttr rb = .ok (vt, [], rb'))
    (htag : adTagged (GetVSAByAttr dict vid vt) = true) :
    parseVSAF dict (fuel + 1) vid rb acc = .panic acc := by
  simp only [parseVSAF]
  rw [if_pos hbl, hg]
  simp only [htag, if_pos]

theorem parseVSAF_step_tagged (dict : attrStore) (fuel vid : Nat) (rb rb' : rBuf)
    (acc : List Attr) (vt t : Nat) (rest : List Nat)
    (hbl : 2 ≤ rb.bl) (hg : getAttr rb = .ok (vt, t :: rest, rb'))
    (htag : adTagged (GetVSAByAttr dict vid vt) = true) :
    parseVSAF dict (fuel + 1) vid rb acc =
      parseVSAF dict fuel vid rb'
        (acc ++ [{ atype := 26, alen := ((t :: rest).length + 8) % 256, vid := vid,
                   vtype := vt, vlen := ((t :: rest).length + 2) % 256, tag := t,
                   data := rest, ad := GetVSAByAttr dict vid vt, pkt := true }]) := by
  simp only [parseVSAF]
  rw [if_pos hbl, hg]
  simp only [htag, if_pos]

theorem parseVSAF_step_untagged (dict : attrStore) (fuel vid : Nat) (rb rb' : rBuf)
    (acc : List Attr) (vt : Nat) (vd : List Nat)
    (hbl : 2 ≤ rb.bl) (hg : getAttr rb = .ok (vt, vd, rb'))
    (htag : adTagged (GetVSAByAttr dict vid vt) = false) :
    parseVSAF dict (fuel + 1) vid rb acc =
      parseVSAF dict fuel vid rb'
        (acc ++ [{ atype := 26, alen := (vd.length + 8) % 256, vid := vid,
                   vtype := vt, vlen := (vd.length + 2) % 256, tag := 0,
                   data := vd, ad := GetVSAByAttr dict vid vt, pkt := true }]) := by
  simp only [parseVSAF]
  rw [if_pos hbl, hg]
  simp only [htag]
  rw [if_neg (by simp)]

theorem parseVSAF_data_within (dict : attrStore) (B : List Nat) :
    ∀ (fuel vid : Nat) (rb : rBuf) (acc : List Attr),
      rb.buf = B →
      (∀ a ∈ acc, ∃ n, a.data = (B.drop n).take a.data.length) →
      ∀ a ∈ vsaAttrs (parseVSAF dict fuel vid rb acc),
        ∃ n, a.data = (B.drop n).take a.data.length := by
  intro fuel
  induction fuel with
  | zero =>
    intro vid rb acc hbuf hacc a ha
    simp only [parseVSAF] at ha
    split at ha <;> (simp only [vsaAttrs] at ha; exact hacc a ha)
  | succ n ih =>
    intro vid rb acc hbuf hacc a ha
    by_cases h1 : 2 ≤ rb.bl
    · cases hg : getAttr rb with
      | error e =>
        rw [parseVSAF_getAttr_err dict n vid rb acc e h1 hg] at ha
        simp only [vsaAttrs] at ha
        exact hacc a ha
      | ok trip =>
        obtain ⟨vt, vd, rb'⟩ := trip
        obtain ⟨hbl2, hlb2, hlble, ht, hv, hr⟩ := getAttr_ok_spec _ _ _ _ hg
        rw [hbuf] at hv
        have hbuf' : rb'.buf = B := by rw [hr]; exact hbuf
        by_cases htag : adTagged (GetVSAByAttr dict vid vt) = true
        · cases hvd : vd with
          | nil =>
            rw [hvd] at hg
            rw [parseVSAF_panic dict n vid rb rb' acc vt h1 hg htag] at ha
            simp only [vsaAttrs] at ha
            exact hacc a ha
          | cons t rest =>
            rw [hvd] at hg
            rw [parseVSAF_step_tagged dict n vid rb rb' acc vt t rest h1 hg htag] at ha
            refine ih vid rb' _ hbuf' ?_ a ha
            intro b hb
            rcases List.mem_append.mp hb with hb | hb
            · exact hacc b hb
            · rw [List.mem_singleton.mp hb]
              have h0 : rest = vd.drop 1 := by simp [hvd]
              have hrest2 : rest =
                  ((B.drop (rb.bp + 2)).take (B.getD (rb.bp + 1) 0 - 2)).drop 1 := by
                rw [h0, hv]
              rw [hrest2]
              exact drop_of_take_form B (rb.bp + 2) (B.getD (rb.bp + 1) 0 - 2) 1
        · have htag' : adTagged (GetVSAByAttr dict vid vt) = false :=
            Bool.not_eq_true _ ▸ eq_false_of_ne_true htag
          rw [parseVSAF_step_untagged dict n vid rb rb' acc vt vd h1 hg htag'] at ha
          refine ih vid rb' _ hbuf' ?_ a ha
          intro b hb
          rcases List.mem_append.mp hb with hb | hb
          · exact hacc b hb
          · rw [List.mem_singleton.mp hb]
            rw [hv]
            exact ⟨rb.bp + 2, take_self_length _ _⟩
    · rw [parseVSAF_exit dict (n + 1) vid rb acc (by omega)] at ha
      simp only [vsaAttrs] at ha
      exact hacc a ha

/-- C5: every TLV — top-level or nested in a VSA body — is read by the
single `getAttr` choke point, which fails with the invalid-data error
exactly when the length byte is 0 or 1, with the out-of-data error exactly
when the buffer holds under 2 bytes or the length byte exceeds the
remaining scope; a successful read returns value bytes that lie within the
remaining scope; consequently every nested attribute's data lies within its
VSA's value bytes, and a nested framing error propagates: the enclosing
walk step returns the error, and `ParsePacket` turns a walk error into a
failure of the whole decode. -/
theorem c5_single_choke_point :
    (∀ rb : rBuf, getAttr rb = .error .invalid ↔
      (2 ≤ rb.bl ∧ rb.buf.getD (rb.bp + 1) 0 < 2)) ∧
    (∀ rb : rBuf, getAttr rb = .error .noData ↔
      (rb.bl < 2 ∨ (2 ≤ rb.buf.getD (rb.bp + 1) 0 ∧ rb.bl < rb.buf.getD (rb.bp + 1) 0))) ∧
    (∀ (rb : rBuf) (t : Nat) (v : List Nat) (rb' : rBuf), getAttr rb = .ok (t, v, rb') →
      v = (rb.buf.drop (rb.bp + 2)).take (rb.buf.getD (rb.bp + 1) 0 - 2) ∧
      2 + v.length ≤ rb.bl ∧ rb'.buf = rb.buf) ∧
    (∀ (dict : attrStore) (adata : List Nat) (vid : Nat) (out : VSAOut),
      parseVSA dict adata = (vid, out) →
      ∀ a ∈ vsaAttrs out, ∃ n, a.data = ((adata.drop 4).drop n).take a.data.length) ∧
    (∀ (dict : attrStore) (fuel : Nat) (rb rb' : rBuf) (acc : List Attr)
       (vids : List Nat) (advl : List Nat) (vid : Nat) (e : PErr) (vas : List Attr),
      getAttr rb = .ok (26, advl, rb') →
      parseVSA dict advl = (vid, .err e vas) →
      parseLoopF dict (fuel + 1) rb acc vids = .err e (acc ++ vas)) ∧
    (∀ (dict : attrStore) (buf : List Nat) (e : PErr) (as' : List Attr),
      20 ≤ buf.length → 20 ≤ declLen buf → declLen buf ≤ 4096 →
      declLen buf ≤ buf.length → declLen buf ≠ 20 →
      parseLoop dict (newBuf (buf.drop 20)) [] [] = .err e as' →
      ParsePacket dict buf = .err e (as'.map (fun a => { a with pkt := false }))) := by
  refine ⟨getAttr_invalid_iff, getAttr_noData_iff, ?_, ?_, ?_, ?_⟩
  · intro rb t v rb' h
    obtain ⟨hbl, hlb, hle, _, hv, hr⟩ := getAttr_ok_spec _ _ _ _ h
    refine ⟨hv, ?_, by rw [hr]⟩
    have : v.length ≤ rb.buf.getD (rb.bp + 1) 0 - 2 := by
      rw [hv]
      simp
    omega
  · intro dict adata vid out h
    simp only [parseVSA] at h
    split at h <;> rename_i hlen
    · simp only [Prod.mk.injEq] at h
      rw [← h.2]
      intro a ha
      simp only [vsaAttrs] at ha
      exact absurd ha (List.not_mem_nil a)
    · simp only [Prod.mk.injEq] at h
      rw [← h.2]
      exact parseVSAF_data_within dict (adata.drop 4) _ _ _ []
        rfl (fun b hb => absurd hb (List.not_mem_nil b)) 
  · intro dict fuel rb rb' acc vids advl vid e vas hg hv
    have hbl := (getAttr_ok_spec _ _ _ _ hg).1
    exact parseLoopF_step_vsa_err dict fuel rb rb' acc vids advl vid e vas hbl hg hv
  · intro dict buf e as' h20 hp1 hp2 hp3 hne hloop
    simp only [ParsePacket]
    rw [if_neg (by omega), if_neg (by omega), if_neg hne, hloop]

theorem c5_witness :
    (getAttr ⟨[7, 1, 9], 0, 3⟩ = .error .invalid) ∧
    (getAttr ⟨[7], 0, 1⟩ = .error .noData) ∧
    (2 + [9].length ≤ 3) ∧
    (∃ n, [9] = (([0, 0, 1, 55, 1, 3, 9].drop 4).drop n).take ([9] : List Nat).length) ∧
    parseLoopF emptyDict 3 ⟨[26, 8, 0, 0, 1, 55, 1, 0], 0, 8⟩ [] [] =
      .err .invalid ([] ++ []) := by
  refine ⟨?_, ?_, ?_, ?_, ?_⟩
  · exact (c5_single_choke_point.1 ⟨[7, 1, 9], 0, 3⟩).mpr (by decide)
  · exact (c5_single_choke_point.2.1 ⟨[7], 0, 1⟩).mpr (by decide)
  · exact (c5_single_choke_point.2.2.1 ⟨[7, 3, 9], 0, 3⟩ 7 [9] ⟨[7, 3, 9], 3, 0⟩
      (by rfl)).2.1
  · exact c5_single_choke_point.2.2.2.1 emptyDict [0, 0, 1, 55, 1, 3, 9] 311
      (.ok [{ atype := 26, alen := 9, vid := 311, vtype := 1, vlen := 3, tag := 0,
              data := [9], ad := none, pkt := true }]) (by decide)
      { atype := 26, alen := 9, vid := 311, vtype := 1, vlen := 3, tag := 0,
        data := [9], ad := none, pkt := true } (by decide)
  · exact c5_single_choke_point.2.2.2.2.1 emptyDict 2 ⟨[26, 8, 0, 0, 1, 55, 1, 0], 0, 8⟩
      ⟨[26, 8, 0, 0, 1, 55, 1, 0], 8, 0⟩ [] [] [0, 0, 1, 55, 1, 0] 311 .invalid []
      (by rfl) (by decide)

theorem getAttr_append' (B : List Nat) (k t lb bl : Nat) (X R : List Nat)
    (hd : B.drop k = t :: lb :: (X ++ R)) (hlb : lb = X.length + 2)
    (hbl : bl = 2 + X.length + R.length) :
    getAttr ⟨B, k, bl⟩ = .ok (t, X, ⟨B, k + 2 + X.length, R.length⟩) := by
  rw [hbl]
  exact getAttr_append B k t lb X R hd hlb

theorem attrKey_ne26 (aty v w : Nat) (h : aty ≠ 26) : attrKey aty v w = aty := by
  unfold attrKey
  rw [if_pos h]

theorem be32v_enc (n : Nat) (r : List Nat) (h : n < 2 ^ 32) :
    be32v (be32enc n ++ r) = n := by
  simp only [be32enc, be32v, List.cons_append, List.getD_cons_zero, List.getD_cons_succ]
  omega

theorem serializeAttr_length (a : Attr) :
    (serializeAttr a).length =
      if a.atype = 26 then 8 + (wireValue a).length else 2 + (wireValue a).length := by
  unfold serializeAttr
  split <;> simp [be32enc] <;> omega

theorem serializeBody_eq_nil (attrs : List Attr) (h : serializeBody attrs = []) :
    attrs = [] := by
  cases attrs with
  | nil => rfl
  | cons a as =>
    exfalso
    have hlen := congrArg List.length h
    simp only [serializeBody, List.length_append, serializeAttr_length, List.length_nil] at hlen
    split at hlen <;> omega

theorem mkAddedAttr_fromAdd (dict : attrStore) (atype vid vtype tagv : Nat)
    (bs : List Nat) : attrFromAdd dict (mkAddedAttr dict atype vid vtype tagv bs) := by
  have had : (mkAddedAttr dict atype vid vtype tagv bs).ad =
      GetAttrByAttrFull dict atype vid vtype := rfl
  have hvid : (mkAddedAttr dict atype vid vtype tagv bs).vid =
      (if atype = 26 then vid else 0) := rfl
  have hvt : (mkAddedAttr dict atype vid vtype tagv bs).vtype =
      (if atype = 26 then vtype else 0) := rfl
  have haty : (mkAddedAttr dict atype vid vtype tagv bs).atype = atype := rfl
  have htg : (mkAddedAttr dict atype vid vtype tagv bs).tag =
      (if adTagged (GetAttrByAttrFull dict atype vid vtype) then tagv else 0) := rfl
  unfold attrFromAdd
  rw [had, hvid, hvt, haty, htg]
  refine ⟨?_, ?_, ?_⟩
  · by_cases h26 : atype = 26
    · simp [h26]
    · simp only [if_neg h26]
      unfold GetAttrByAttrFull
      rw [attrKey_ne26 _ _ _ h26, attrKey_ne26 _ _ _ h26]
  · intro h
    simp [h]
  · intro h26
    simp [h26]

theorem builtVia_fromAdd (dict : attrStore) (p : Packet) (h : BuiltVia dict p) :
    ∀ a ∈ p.attrs, attrFromAdd dict a := by
  induction h with
  | base q hq =>
    rw [hq]
    intro a ha
    exact absurd ha (List.not_mem_nil a)
  | step q q' atype vid vtype tagv v hb hadd ih =>
    simp only [Packet.AddAttr] at hadd
    cases hc : attrBytes dict atype vid vtype v with
    | error e =>
      rw [hc] at hadd
      exact absurd hadd (by simp)
    | ok bs =>
      rw [hc] at hadd
      injection hadd with hadd
      rw [← hadd]
      intro a ha
      simp only [List.mem_append] at ha
      rcases ha with ha | ha
      · exact ih a ha
      · rw [List.mem_singleton.mp ha]
        exact mkAddedAttr_fromAdd dict atype vid vtype tagv bs

theorem parseVSA_single (dict : attrStore) (vid vt : Nat) (W : List Nat)
    (hvid : vid < 2 ^ 32) (hWl : 2 + W.length ≤ 255) :
    parseVSA dict (be32enc vid ++ vt :: (2 + W.length) :: W) =
      (vid,
        if adTagged (GetVSAByAttr dict vid vt) then
          (match W with
           | [] => VSAOut.panic []
           | t :: rest =>
             VSAOut.ok [⟨26, (W.length + 8) % 256, vid, vt, (W.length + 2) % 256, t,
               rest, GetVSAByAttr dict vid vt, true⟩])
        else
          VSAOut.ok [⟨26, (W.length + 8) % 256, vid, vt, (W.length + 2) % 256, 0,
            W, GetVSAByAttr dict vid vt, true⟩]) := by
  simp only [parseVSA]
  rw [if_neg (by simp [be32enc])]
  rw [show (be32enc vid ++ vt :: (2 + W.length) :: W).drop 4 =
      vt :: (2 + W.length) :: W from by simp [be32enc]]
  rw [be32v_enc vid _ hvid]
  rw [show newBuf (vt :: (2 + W.length) :: W) =
      (⟨vt :: (2 + W.length) :: W, 0, W.length + 1 + 1⟩ : rBuf) from by simp [newBuf]]
  have hga : getAttr ⟨vt :: (2 + W.length) :: W, 0, W.length + 1 + 1⟩ =
      .ok (vt, W, ⟨vt :: (2 + W.length) :: W, 0 + 2 + W.length, List.length ([] : List Nat)⟩) :=
    getAttr_append' _ 0 vt (2 + W.length) _ W []
      (by simp) (by omega) (by simp only [List.length_cons, List.length_nil]; omega)
  cases htag : adTagged (GetVSAByAttr dict vid vt) with
  | true =>
    cases W with
    | nil =>
      rw [parseVSAF_panic dict (List.length ([] : List Nat) + 1) vid _ _ [] vt
        (by simp) hga htag]
      simp [htag]
    | cons t rest =>
      rw [parseVSAF_step_tagged dict ((t :: rest).length + 1) vid _ _ [] vt t rest
        (by simp) hga htag]
      rw [parseVSAF_exit dict _ vid _ _ (by simp)]
      simp [htag]
  | false =>
    rw [parseVSAF_step_untagged dict (W.length + 1) vid _ _ [] vt W
      (by simp) hga htag]
    rw [parseVSAF_exit dict _ vid _ _ (by simp)]
    simp [htag]

theorem loop_decodes (dict : attrStore) :
    ∀ (attrs : List Attr) (B : List Nat) (k fuel : Nat) (acc : List Attr)
      (vids : List Nat),
      B.drop k = serializeBody attrs →
      (serializeBody attrs).length ≤ fuel →
      (∀ a ∈ attrs, attrFromAdd dict a ∧ wireOK a) →
      ∃ ds vids', parseLoopF dict fuel ⟨B, k, (serializeBody attrs).length⟩ acc vids =
        .ok (acc ++ ds) vids' ∧ attrsMatchB ds attrs = true := by
  intro attrs
  induction attrs with
  | nil =>
    intro B k fuel acc vids hdrop hfuel hok
    refine ⟨[], vids, ?_, rfl⟩
    rw [List.append_nil]
    exact parseLoopF_exit dict fuel _ acc vids (by simp [serializeBody])
  | cons a as ih =>
    intro B k fuel acc vids hdrop hfuel hok
    obtain ⟨hfa, hwa⟩ := hok a (List.mem_cons_self a as)
    have hfa' := hfa
    unfold attrFromAdd at hfa'
    obtain ⟨hfad, hftag, hfvz⟩ := hfa'
    have hwa' := hwa
    unfold wireOK at hwa'
    obtain ⟨hb1, hb2, hb3, hb4, hb5⟩ := hwa'
    have hoks : ∀ b ∈ as, attrFromAdd dict b ∧ wireOK b :=
      fun b hb => hok b (List.mem_cons_of_mem a hb)
    by_cases ha26 : a.atype = 26
    · -- VSA attribute
      have hwv : (wireValue a).length ≤ 247 := by
        rw [if_pos ha26] at hb5; exact hb5
      have hmod8 : (8 + (wireValue a).length) % 256 = 8 + (wireValue a).length :=
        Nat.mod_eq_of_lt (by omega)
      have hmod2 : (2 + (wireValue a).length) % 256 = 2 + (wireValue a).length :=
        Nat.mod_eq_of_lt (by omega)
      have hser : serializeAttr a = 26 :: (8 + (wireValue a).length) ::
          (be32enc a.vid ++ a.vtype :: (2 + (wireValue a).length) :: wireValue a) := by
        simp [serializeAttr, ha26, hmod8, hmod2, be32enc]
      have hXlen : (be32enc a.vid ++
          a.vtype :: (2 + (wireValue a).length) :: wireValue a).length =
          6 + (wireValue a).length := by
        simp [be32enc]; omega
      have hserlen : (serializeAttr a).length = 8 + (wireValue a).length := by
        rw [serializeAttr_length, if_pos ha26]
      have hsplit : B.drop k = serializeAttr a ++ serializeBody as := by
        rw [hdrop]; rfl
      have hlen : (serializeBody (a :: as)).length =
          8 + (wireValue a).length + (serializeBody as).length := by
        show (serializeAttr a ++ serializeBody as).length = _
        rw [List.length_append, hserlen]
      have hd : B.drop k = 26 :: (8 + (wireValue a).length) ::
          ((be32enc a.vid ++ a.vtype :: (2 + (wireValue a).length) :: wireValue a)
            ++ serializeBody as) := by
        rw [hsplit, hser]; simp
      have hg := getAttr_append' B k 26 (8 + (wireValue a).length)
        ((serializeBody (a :: as)).length)
        (be32enc a.vid ++ a.vtype :: (2 + (wireValue a).length) :: wireValue a)
        (serializeBody as) hd (by rw [hXlen]; omega) (by rw [hXlen, hlen]; omega)
      rcases fuel with _ | f
      · exfalso; rw [hlen] at hfuel; omega
      have hfuel' : (serializeBody as).length ≤ f := by rw [hlen] at hfuel; omega
      have hdrop'' : B.drop (k + 2 +
          (be32enc a.vid ++ a.vtype :: (2 + (wireValue a).length) :: wireValue a).length)
          = serializeBody as := by
        have h1 : B.drop (k + (serializeAttr a).length) = serializeBody as := by
          rw [← List.drop_drop, hsplit]
          exact List.drop_left _ _
        have harith : k + 2 + (be32enc a.vid ++
            a.vtype :: (2 + (wireValue a).length) :: wireValue a).length =
            k + (serializeAttr a).length := by
          rw [hXlen, hserlen]; omega
        rw [harith]; exact h1
      have hadp : GetVSAByAttr dict a.vid a.vtype = a.ad := by
        rw [hfad]
        unfold GetVSAByAttr
        rw [ha26]
      have hbl2 : 2 ≤ (serializeBody (a :: as)).length := by rw [hlen]; omega
      cases htag : adTagged a.ad with
      | true =>
        have htagv : adTagged (GetVSAByAttr dict a.vid a.vtype) = true := by
          rw [hadp]; exact htag
        have hwvt : wireValue a = a.tag :: a.data := by simp [wireValue, htag]
        have hvsa0 := parseVSA_single dict a.vid a.vtype (a.tag :: a.data) hb3
          (by rw [← hwvt]; omega)
        simp only [htagv, if_true] at hvsa0
        rw [← hwvt] at hvsa0
        obtain ⟨ds', vids', hrun, hmatch⟩ := ih B
          (k + 2 + (be32enc a.vid ++
            a.vtype :: (2 + (wireValue a).length) :: wireValue a).length) f
          (acc ++ [(⟨26, ((wireValue a).length + 8) % 256, a.vid, a.vtype,
            ((wireValue a).length + 2) % 256, a.tag, a.data,
            GetVSAByAttr dict a.vid a.vtype, true⟩ : Attr)])
          (if a.vid ∈ vids then vids else vids ++ [a.vid]) hdrop'' hfuel' hoks
        refine ⟨(⟨26, ((wireValue a).length + 8) % 256, a.vid, a.vtype,
            ((wireValue a).length + 2) % 256, a.tag, a.data,
            GetVSAByAttr dict a.vid a.vtype, true⟩ : Attr) :: ds', vids', ?_, ?_⟩
        · rw [parseLoopF_step_vsa_ok dict f _ _ acc vids _ a.vid _ hbl2 hg hvsa0]
          rw [hrun]
          simp
        · simp only [attrsMatchB, hmatch, Bool.and_true]
          simp [matchAttr, Attr.GetEData, ha26, hadp]
      | false =>
        have htagv : adTagged (GetVSAByAttr dict a.vid a.vtype) = false := by
          rw [hadp]; exact htag
        have hwvt : wireValue a = a.data := by simp [wireValue, htag]
        have htag0 : a.tag = 0 := hftag htag
        have hvsa0 := parseVSA_single dict a.vid a.vtype (wireValue a) hb3 (by omega)
        simp only [htagv, Bool.false_eq_true, if_false] at hvsa0
        obtain ⟨ds', vids', hrun, hmatch⟩ := ih B
          (k + 2 + (be32enc a.vid ++
            a.vtype :: (2 + (wireValue a).length) :: wireValue a).length) f
          (acc ++ [(⟨26, ((wireValue a).length + 8) % 256, a.vid, a.vtype,
            ((wireValue a).length + 2) % 256, 0, wireValue a,
            GetVSAByAttr dict a.vid a.vtype, true⟩ : Attr)])
          (if a.vid ∈ vids then vids else vids ++ [a.vid]) hdrop'' hfuel' hoks
        refine ⟨(⟨26, ((wireValue a).length + 8) % 256, a.vid, a.vtype,
            ((wireValue a).length + 2) % 256, 0, wireValue a,
            GetVSAByAttr dict a.vid a.vtype, true⟩ : Attr) :: ds', vids', ?_, ?_⟩
        · rw [parseLoopF_step_vsa_ok dict f _ _ acc vids _ a.vid _ hbl2 hg hvsa0]
          rw [hrun]
          simp
        · simp only [attrsMatchB, hmatch, Bool.and_true]
          simp [matchAttr, Attr.GetEData, ha26, hadp, htag0, hwvt]
    · -- plain attribute
      have hwv : (wireValue a).length ≤ 253 := by
        rw [if_neg ha26] at hb5; exact hb5
      have hmod : (2 + (wireValue a).length) % 256 = 2 + (wireValue a).length :=
        Nat.mod_eq_of_lt (by omega)
      have hser : serializeAttr a = a.atype :: (2 + (wireValue a).length) :: wireValue a := by
        simp [serializeAttr, ha26, hmod]
      have hlen : (serializeBody (a :: as)).length =
          2 + (wireValue a).length + (serializeBody as).length := by
        simp [serializeBody, hser]
        omega
      have hd : B.drop k = a.atype :: (2 + (wireValue a).length) ::
          (wireValue a ++ serializeBody as) := by
        rw [hdrop]
        simp [serializeBody, hser]
      have hg := getAttr_append B k a.atype (2 + (wireValue a).length)
        (wireValue a) (serializeBody as) hd (by omega)
      -- fuel must be positive
      rcases fuel with _ | f
      · exfalso; rw [hlen] at hfuel; omega
      have hfuel' : (serializeBody as).length ≤ f := by rw [hlen] at hfuel; omega
      -- the decoded attribute
      have hadp : GetAttrByAttr dict a.atype = a.ad := by
        rw [hfad]
        unfold GetAttrByAttr GetAttrByAttrFull
        rw [attrKey_ne26 _ _ _ ha26, attrKey_ne26 _ _ _ ha26]
      have hsplit : B.drop k = serializeAttr a ++ serializeBody as := by
        rw [hdrop]; rfl
      have hserlen : (serializeAttr a).length = 2 + (wireValue a).length := by
        rw [serializeAttr_length, if_neg ha26]
      have hdrop' : B.drop (k + (2 + (wireValue a).length)) = serializeBody as := by
        rw [← List.drop_drop, hsplit, ← hserlen]
        exact List.drop_left _ _
      have hdrop'' : B.drop (k + 2 + (wireValue a).length) = serializeBody as := by
        have harith : k + (2 + (wireValue a).length) = k + 2 + (wireValue a).length := by
          omega
        rw [← harith]; exact hdrop'
      rw [show (serializeBody (a :: as)).length =
          2 + (wireValue a).length + (serializeBody as).length from hlen]
      cases htag : adTagged a.ad with
      | true =>
        have hwvt : wireValue a = a.tag :: a.data := by simp [wireValue, htag]
        have hp : parseAttrF dict a.atype (wireValue a) = some
            (⟨a.atype, ((wireValue a).length + 2) % 256, 0, 0, 0, a.tag, a.data, a.ad, true⟩ : Attr) := by
          simp only [parseAttrF, hadp, htag, if_pos]
          rw [hwvt]
        obtain ⟨ds', vids', hrun, hmatch⟩ := ih B (k + 2 + (wireValue a).length) f
          (acc ++ [(⟨a.atype, ((wireValue a).length + 2) % 256, 0, 0, 0, a.tag, a.data, a.ad, true⟩ : Attr)]) vids hdrop'' hfuel' hoks
        refine ⟨(⟨a.atype, ((wireValue a).length + 2) % 256, 0, 0, 0, a.tag, a.data, a.ad, true⟩ : Attr) :: ds', vids', ?_, ?_⟩
        · rw [parseLoopF_step_plain dict f _ _ acc vids a.atype (wireValue a) _
            (by show 2 ≤ 2 + (wireValue a).length + (serializeBody as).length; omega)
            hg ha26 hp]
          rw [hrun]
          simp
        · simp only [attrsMatchB, hmatch, Bool.and_true]
          simp [matchAttr, Attr.GetEData, (hfvz ha26).1, (hfvz ha26).2]
      | false =>
        have hwvt : wireValue a = a.data := by simp [wireValue, htag]
        have htag0 : a.tag = 0 := hftag htag
        have hp : parseAttrF dict a.atype (wireValue a) = some
            (⟨a.atype, ((wireValue a).length + 2) % 256, 0, 0, 0, 0, wireValue a, a.ad, true⟩ : Attr) := by
          simp only [parseAttrF, hadp, htag]
          rw [if_neg (by simp)]
        obtain ⟨ds', vids', hrun, hmatch⟩ := ih B (k + 2 + (wireValue a).length) f
          (acc ++ [(⟨a.atype, ((wireValue a).length + 2) % 256, 0, 0, 0, 0, wireValue a, a.ad, true⟩ : Attr)]) vids hdrop'' hfuel' hoks
        refine ⟨(⟨a.atype, ((wireValue a).length + 2) % 256, 0, 0, 0, 0, wireValue a, a.ad, true⟩ : Attr) :: ds', vids', ?_, ?_⟩
        · rw [parseLoopF_step_plain dict f _ _ acc vids a.atype (wireValue a) _
            (by show 2 ≤ 2 + (wireValue a).length + (serializeBody as).length; omega)
            hg ha26 hp]
          rw [hrun]
          simp
        · simp only [attrsMatchB, hmatch, Bool.and_true]
          simp [matchAttr, Attr.GetEData, (hfvz ha26).1, (hfvz ha26).2, htag0, hwvt]

/-- C1 (amended): for any packet built solely via `AddAttr` with valid typed
values whose encodings fit the wire format — byte-ranged header fields, a
16-byte authenticator, each attribute's wire value at most 253 bytes (247
inside a VSA, both captured by `wireOK`), and total length at most 4096 —
decoding the spec-modelled `Serialize` output yields a packet with the same
code, id, authenticator, and attribute sequence (type, vendor identity,
tag, evaluated value). -/
theorem c1_roundtrip_bounded (dict : attrStore) (p : Packet)
    (hb : BuiltVia dict p)
    (hcode : p.code < 256) (hid : p.id < 256) (hauth : p.auth.length = 16)
    (htot : 20 + (serializeBody p.attrs).length ≤ 4096)
    (hwok : ∀ a ∈ p.attrs, wireOK a) :
    decodeMatchesB dict p = true := by
  have hfa := builtVia_fromAdd dict p hb
  have hS : Packet.Serialize p =
      [p.code % 256, p.id % 256, (20 + (serializeBody p.attrs).length) / 2 ^ 8 % 256,
        (20 + (serializeBody p.attrs).length) % 256] ++ p.auth ++ serializeBody p.attrs := rfl
  have hlenS : (Packet.Serialize p).length = 20 + (serializeBody p.attrs).length := by
    rw [hS]; simp [hauth]; omega
  have hget0 : (Packet.Serialize p).getD 0 0 = p.code % 256 := by rw [hS]; rfl
  have hget1 : (Packet.Serialize p).getD 1 0 = p.id % 256 := by rw [hS]; rfl
  have hdecl : declLen (Packet.Serialize p) = 20 + (serializeBody p.attrs).length := by
    unfold declLen
    rw [hS]
    simp only [List.cons_append, List.getD_cons_succ, List.getD_cons_zero]
    omega
  have hdrop4 : (Packet.Serialize p).drop 4 = p.auth ++ serializeBody p.attrs := by
    rw [hS]; rfl
  have hauthS : ((Packet.Serialize p).drop 4).take 16 = p.auth := by
    rw [hdrop4, ← hauth]; exact List.take_left _ _
  have hdrop20 : (Packet.Serialize p).drop 20 = serializeBody p.attrs := by
    have h1 : ((Packet.Serialize p).drop 4).drop 16 = (Packet.Serialize p).drop 20 := by
      rw [List.drop_drop]
    rw [← h1, hdrop4, ← hauth]
    exact List.drop_left _ _
  by_cases hnil : serializeBody p.attrs = []
  · have hattrs : p.attrs = [] := serializeBody_eq_nil _ hnil
    have hdecl20 : declLen (Packet.Serialize p) = 20 := by rw [hdecl, hnil]; rfl
    have hPP : ParsePacket dict (Packet.Serialize p) = .ok (hdrPacket (Packet.Serialize p)) := by
      simp only [ParsePacket]
      rw [if_neg (by omega), if_neg (by rw [hdecl20]; omega), if_pos hdecl20]
    unfold decodeMatchesB
    rw [hPP]
    simp only [List.getD_eq_getElem?_getD] at hget0 hget1
    simp [hdrPacket, hget0, hget1, hauthS, Nat.mod_eq_of_lt hcode,
      Nat.mod_eq_of_lt hid, hattrs, attrsMatchB]
  · have hlpos : 0 < (serializeBody p.attrs).length := List.length_pos.mpr hnil
    have hdecl20 : ¬(declLen (Packet.Serialize p) = 20) := by rw [hdecl]; omega
    have hrb : newBuf ((Packet.Serialize p).drop 20) =
        ⟨serializeBody p.attrs, 0, (serializeBody p.attrs).length⟩ := by
      rw [hdrop20]; rfl
    obtain ⟨ds, vids', hrun, hmatch⟩ := loop_decodes dict p.attrs
      (serializeBody p.attrs) 0 ((serializeBody p.attrs).length) [] []
      (by simp) (le_refl _) (fun a ha => ⟨hfa a ha, hwok a ha⟩)
    have hPP : ParsePacket dict (Packet.Serialize p) =
        .ok { hdrPacket (Packet.Serialize p) with attrs := [] ++ ds, vids := vids' } := by
      simp only [ParsePacket]
      rw [if_neg (by omega), if_neg (by rw [hdecl]; omega), if_neg hdecl20]
      rw [hrb]
      unfold parseLoop
      rw [hrun]
    unfold decodeMatchesB
    rw [hPP]
    simp only [List.getD_eq_getElem?_getD] at hget0 hget1
    simp [hdrPacket, hget0, hget1, hauthS, Nat.mod_eq_of_lt hcode,
      Nat.mod_eq_of_lt hid, hmatch]

theorem c1_roundtrip_witness : decodeMatchesB c1dict c1pkt3 = true :=
  c1_roundtrip_bounded c1dict c1pkt3
    (BuiltVia.step _ _ 26 311 1 0 (Value.vu32 5)
      (BuiltVia.step _ _ 64 0 0 3 (Value.vu32 1)
        (BuiltVia.step _ _ 1 0 0 0 (Value.vstr [104, 105])
          (BuiltVia.base c1shell rfl) rfl) rfl) rfl)
    (by decide) (by decide) (by decide) (by decide) (by decide)

/-- C1 counterexample to the unamended claim: a packet built solely via
`AddAttr` from a valid 254-byte string value serializes to a frame whose
one-byte attribute length wraps to 0, so decode fails and returns no packet
at all — the round trip does not hold for every packet built from valid
typed values. -/
theorem c1_oversize_counterexample :
    BuiltVia c1dict c1bigpkt ∧ decodeMatchesB c1dict c1bigpkt = false :=
  ⟨BuiltVia.step _ _ 1 0 0 0 (Value.vstr (List.replicate 254 97))
      (BuiltVia.base c1shell rfl) rfl,
   by decide⟩

theorem c6_witness :
    ParsePacket emptyDict c6buf = ParseRes.ok (hdrPacket c6buf) ∧
    (hdrPacket c6buf).attrs = [] ∧ (hdrPacket c6buf).vids = [] :=
  (c6_header_stage emptyDict c6buf).2.2.2 (by decide) (by decide)
